import Mathlib

/-!
Verification of the request dispatcher of the tigergraph-ui-client repository.

The repository consists of a single utility function `apiRequest`
(src/lib/client/api-fetch-request/index.ts) that wraps the platform fetch
primitive, plus a vite build configuration that substitutes the placeholder
`__HONO_DOMAIN__` with the empty string (development) or a fixed production
domain.

The shallow embedding below models:
  * JS object mappings as association lists (a JS object literal has
    pairwise-distinct keys; hypotheses are added where that matters);
  * JSON values as an inductive type `Json` (numbers are modelled as
    integers: every numeric literal appearing in the repository and its
    documented examples is integral; floats are outside the model);
  * the platform `JSON.stringify` as a recursive serializer emitting exactly
    the compact JSON text that the JS function produces on the modelled
    values, and the platform `JSON.parse` as a fuel-indexed recursive-descent
    parser of that grammar (escape sequences that denote surrogate halves
    and non-integral numeric literals are rejected: both are outside the
    value model);
  * the platform `URLSearchParams` serializer as application/
    x-www-form-urlencoded encoding (UTF-8 percent-encoding, space as plus,
    uppercase hex), and its parser as the inverse used by the testable
    round-trip properties of the specification;
  * the platform `Response` as a record of status, status text and raw body
    text, with `Response.json` decoding the body text, and `fetch` as an
    arbitrary function from URL and request options to such a response;
  * a thrown JS value as either a JSON decode failure (`SyntaxError`) or an
    `Error` carrying a message string.

All definitions are executable by the kernel (structural recursion only, with
explicit fuel where the recursion is not structural on the input).
-/

namespace ApiFetch

/-! ## Characters and decimal digits -/

/-- The decimal digit character for a value below ten. -/
def digitChar (n : Nat) : Char := Char.ofNat (48 + n)

/-- Decimal digit test on characters. -/
def isDigitChar (c : Char) : Bool := 48 ≤ c.toNat && c.toNat ≤ 57

/-- Numeric value of a decimal digit character. -/
def digVal (c : Char) : Nat := c.toNat - 48

/-- Decimal rendering of a natural number, most significant digit first.
The fuel argument bounds the recursion depth; `renderNat` supplies enough. -/
def renderNatAux : Nat → Nat → List Char
  | 0, _ => []
  | fuel + 1, n =>
    if n < 10 then [digitChar n] else renderNatAux fuel (n / 10) ++ [digitChar (n % 10)]

/-- Decimal rendering of a natural number (the JS number-to-string coercion
restricted to integral values). -/
def renderNat (n : Nat) : List Char := renderNatAux (n + 1) n

/-- Decimal rendering of an integer, as JS renders an integral number. -/
def intChars (n : Int) : List Char :=
  if n < 0 then '-' :: renderNat n.natAbs else renderNat n.natAbs

/-- String form of a natural number. -/
def natToString (n : Nat) : String := ⟨renderNat n⟩

/-- String form of an integer. -/
def intToString (n : Int) : String := ⟨intChars n⟩

/-- Greedy scan of a decimal digit run, with an accumulator holding the value
of the digits already consumed. -/
def parseDigitsAux : Nat → List Char → Nat × List Char
  | acc, [] => (acc, [])
  | acc, c :: r =>
    if isDigitChar c then parseDigitsAux (acc * 10 + digVal c) r else (acc, c :: r)

/-! ## The JSON value model -/

/-- JSON values. Numbers are modelled as integers (see the file comment);
objects are ordered field lists, as produced by parsing. -/
inductive Json where
  | null
  | bool (b : Bool)
  | num (n : Int)
  | str (s : String)
  | arr (elems : List Json)
  | obj (fields : List (String × Json))

/-- Lowercase hexadecimal digit character. -/
def hexDigitLower (n : Nat) : Char := if n < 10 then digitChar n else Char.ofNat (87 + n)

/-- JSON string escaping of one character, exactly as the platform
`JSON.stringify` quotes characters of a string value. -/
def escChar (c : Char) : List Char :=
  if c = '"' then ['\\', '"']
  else if c = '\\' then ['\\', '\\']
  else if c = '\x08' then ['\\', 'b']
  else if c = '\t' then ['\\', 't']
  else if c = '\n' then ['\\', 'n']
  else if c = '\x0c' then ['\\', 'f']
  else if c = '\r' then ['\\', 'r']
  else if c.toNat < 32 then
    ['\\', 'u', '0', '0', hexDigitLower (c.toNat / 16), hexDigitLower (c.toNat % 16)]
  else [c]

/-- JSON string escaping of a whole string body. -/
def escBody (s : String) : List Char := s.data.flatMap escChar

mutual

/-- Compact JSON serialization of a value, as the character list produced by
the platform `JSON.stringify` with no spacing argument. -/
def encV : Json → List Char
  | .null => ['n', 'u', 'l', 'l']
  | .arr [] => ['[', ']']
  | .bool true => ['t', 'r', 'u', 'e']
  | .obj [] => ['\x7b', '\x7d']
  | .bool false => ['f', 'a', 'l', 's', 'e']
  | .num n => intChars n
  | .str s => '"' :: (escBody s ++ ['"'])
  | .arr (x :: t) => '[' :: (encV x ++ encL t)
  | .obj ((k, v) :: t) => '\x7b' :: '"' :: (escBody k ++ '"' :: ':' :: (encV v ++ encM t))

/-- Serialization of the remaining elements of a non-empty array, including
the separating commas and the closing bracket. -/
def encL : List Json → List Char
  | [] => [']']
  | x :: t => ',' :: (encV x ++ encL t)

/-- Serialization of the remaining fields of a non-empty object, including
the separating commas and the closing brace. -/
def encM : List (String × Json) → List Char
  | [] => ['\x7d']
  | (k, v) :: t => ',' :: '"' :: (escBody k ++ '"' :: ':' :: (encV v ++ encM t))

end

/-- The platform `JSON.stringify` on the modelled values. -/
def Json.stringify (v : Json) : String := ⟨encV v⟩

/-! ## The JSON parser (platform `JSON.parse` on the modelled grammar) -/

/-- JSON insignificant whitespace test. -/
def isWsChar (c : Char) : Bool := c = ' ' || c = '\t' || c = '\n' || c = '\r'

/-- Drop leading JSON whitespace. -/
def skipWs : List Char → List Char
  | [] => []
  | c :: r => if isWsChar c then skipWs r else c :: r

/-- Value of a hexadecimal digit character, both cases accepted. -/
def hexVal (c : Char) : Option Nat :=
  if 48 ≤ c.toNat && c.toNat ≤ 57 then some (c.toNat - 48)
  else if 97 ≤ c.toNat && c.toNat ≤ 102 then some (c.toNat - 87)
  else if 65 ≤ c.toNat && c.toNat ≤ 70 then some (c.toNat - 55)
  else none

/-- Prepend a decoded character to the result of parsing the rest of a JSON
string body. -/
def consStr (c : Char) (p : Option (List Char × List Char)) :
    Option (List Char × List Char) :=
  p.map fun x => (c :: x.1, x.2)

/-- Parse the body of a JSON string after the opening quote, returning the
decoded characters and the input following the closing quote. Escapes that
denote surrogate halves are rejected (outside the model, see file comment). -/
def parseStrChars : List Char → Option (List Char × List Char)
  | [] => none
  | c :: r =>
    if c = '"' then some ([], r)
    else if c = '\\' then
      match r with
      | [] => none
      | e :: r2 =>
        if e = '"' then consStr '"' (parseStrChars r2)
        else if e = '\\' then consStr '\\' (parseStrChars r2)
        else if e = '/' then consStr '/' (parseStrChars r2)
        else if e = 'b' then consStr '\x08' (parseStrChars r2)
        else if e = 'f' then consStr '\x0c' (parseStrChars r2)
        else if e = 'n' then consStr '\n' (parseStrChars r2)
        else if e = 'r' then consStr '\r' (parseStrChars r2)
        else if e = 't' then consStr '\t' (parseStrChars r2)
        else if e = 'u' then
          match r2 with
          | h1 :: h2 :: h3 :: h4 :: r3 =>
            match hexVal h1, hexVal h2, hexVal h3, hexVal h4 with
            | some a, some b, some c2, some d =>
              if 55296 ≤ ((a * 16 + b) * 16 + c2) * 16 + d &&
                  ((a * 16 + b) * 16 + c2) * 16 + d < 57344 then none
              else consStr (Char.ofNat (((a * 16 + b) * 16 + c2) * 16 + d)) (parseStrChars r3)
            | _, _, _, _ => none
          | _ => none
        else none
    else if c.toNat < 32 then none
    else consStr c (parseStrChars r)

mutual

/-- Parse one JSON value. The fuel bounds the nesting recursion; every other
token is consumed by structural scans. -/
def parseV : Nat → List Char → Option (Json × List Char)
  | 0, _ => none
  | fuel + 1, cs =>
    match skipWs cs with
    | [] => none
    | c :: r =>
      if c = 'n' then
        match r with
        | 'u' :: 'l' :: 'l' :: r2 => some (.null, r2)
        | _ => none
      else if c = 't' then
        match r with
        | 'r' :: 'u' :: 'e' :: r2 => some (.bool true, r2)
        | _ => none
      else if c = 'f' then
        match r with
        | 'a' :: 'l' :: 's' :: 'e' :: r2 => some (.bool false, r2)
        | _ => none
      else if c = '"' then
        (parseStrChars r).map fun x => (.str ⟨x.1⟩, x.2)
      else if c = '[' then
        match skipWs r with
        | [] => none
        | c2 :: r2 =>
          if c2 = ']' then some (.arr [], r2)
          else (parseL fuel (c2 :: r2)).map fun x => (.arr x.1, x.2)
      else if c = '\x7b' then
        match skipWs r with
        | [] => none
        | c2 :: r2 =>
          if c2 = '\x7d' then some (.obj [], r2)
          else (parseM fuel (c2 :: r2)).map fun x => (.obj x.1, x.2)
      else if c = '-' then
        match r with
        | [] => none
        | c2 :: r2 =>
          if isDigitChar c2 then
            let p := parseDigitsAux (digVal c2) r2
            some (.num (-(p.1 : Int)), p.2)
          else none
      else if isDigitChar c then
        let p := parseDigitsAux (digVal c) r
        some (.num (p.1 : Int), p.2)
      else none

/-- Parse the elements of a non-empty array after the opening bracket,
consuming the closing bracket. -/
def parseL : Nat → List Char → Option (List Json × List Char)
  | 0, _ => none
  | fuel + 1, cs =>
    match parseV fuel cs with
    | none => none
    | some (v, r) =>
      match skipWs r with
      | [] => none
      | c :: r2 =>
        if c = ',' then (parseL fuel r2).map fun x => (v :: x.1, x.2)
        else if c = ']' then some ([v], r2)
        else none

/-- Parse the fields of a non-empty object after the opening brace, consuming
the closing brace. -/
def parseM : Nat → List Char → Option (List (String × Json) × List Char)
  | 0, _ => none
  | fuel + 1, cs =>
    match skipWs cs with
    | [] => none
    | c :: r =>
      if c = '"' then
        match parseStrChars r with
        | none => none
        | some (k, r2) =>
          match skipWs r2 with
          | [] => none
          | c2 :: r3 =>
            if c2 = ':' then
              match parseV fuel r3 with
              | none => none
              | some (v, r4) =>
                match skipWs r4 with
                | [] => none
                | c3 :: r5 =>
                  if c3 = ',' then (parseM fuel r5).map fun x => ((⟨k⟩, v) :: x.1, x.2)
                  else if c3 = '\x7d' then some ([(⟨k⟩, v)], r5)
                  else none
            else none
      else none

end

/-- The platform `JSON.parse` on the modelled grammar: parse one value,
allowing surrounding whitespace, requiring the whole input to be consumed. -/
def Json.parse (s : String) : Option Json :=
  match parseV (2 * s.length + 2) s.data with
  | some (v, rest) =>
    match skipWs rest with
    | [] => some v
    | _ => none
  | none => none

/-! ## URLSearchParams (application/x-www-form-urlencoded) -/

/-- A JS primitive value usable as a query parameter. The platform
`URLSearchParams` constructor coerces each value to a string. Numbers are
modelled as integers (see the file comment). -/
inductive Prim where
  | str (s : String)
  | num (n : Int)
  | bool (b : Bool)
deriving DecidableEq

/-- The JS string coercion of a primitive value. -/
def primToString : Prim → String
  | .str s => s
  | .num n => intToString n
  | .bool true => "true"
  | .bool false => "false"

/-- UTF-8 encoding of one character as its byte values. -/
def utf8Enc (c : Char) : List Nat :=
  if c.toNat < 128 then [c.toNat]
  else if c.toNat < 2048 then [192 + c.toNat / 64, 128 + c.toNat % 64]
  else if c.toNat < 65536 then
    [224 + c.toNat / 4096, 128 + c.toNat / 64 % 64, 128 + c.toNat % 64]
  else
    [240 + c.toNat / 262144, 128 + c.toNat / 4096 % 64, 128 + c.toNat / 64 % 64,
      128 + c.toNat % 64]

/-- ASCII alphanumeric byte test. -/
def isAlphaNumByte (b : Nat) : Bool :=
  (48 ≤ b && b ≤ 57) || (65 ≤ b && b ≤ 90) || (97 ≤ b && b ≤ 122)

/-- Bytes the urlencoded serializer leaves unescaped: alphanumerics and
asterisk, hyphen, period, underscore. -/
def isSafeByte (b : Nat) : Bool := isAlphaNumByte b || b = 42 || b = 45 || b = 46 || b = 95

/-- Uppercase hexadecimal digit character. -/
def hexDigitUpper (n : Nat) : Char := if n < 10 then digitChar n else Char.ofNat (55 + n)

/-- Urlencoded serialization of one byte: space becomes plus, safe bytes stay
literal, everything else is percent-encoded with uppercase hex. -/
def encByte (b : Nat) : List Char :=
  if b = 32 then ['+']
  else if isSafeByte b then [Char.ofNat b]
  else ['%', hexDigitUpper (b / 16), hexDigitUpper (b % 16)]

/-- Urlencoded serialization of a component (a key or a value). -/
def encodeComp (s : String) : List Char := (s.data.flatMap utf8Enc).flatMap encByte

/-- Join rendered pairs with ampersands. -/
def ampJoin : List (List Char) → List Char
  | [] => []
  | [p] => p
  | p :: q :: ps => p ++ '&' :: ampJoin (q :: ps)

/-- The string the platform `URLSearchParams` serializer produces for a list
of key and value pairs taken from a JS object of primitive values. -/
def searchParamsString (qp : List (String × Prim)) : String :=
  ⟨ampJoin (qp.map fun kv => encodeComp kv.1 ++ '=' :: encodeComp (primToString kv.2))⟩

/-- Urlencoded percent-decoding of a component into its byte values. -/
def pctDec : List Char → Option (List Nat)
  | [] => some []
  | c :: r =>
    if c = '+' then (pctDec r).map (32 :: ·)
    else if c = '%' then
      match r with
      | h :: l :: r2 =>
        match hexVal h, hexVal l with
        | some a, some b => (pctDec r2).map ((16 * a + b) :: ·)
        | _, _ => none
      | _ => none
    else (pctDec r).map (c.toNat :: ·)

/-- Continuation byte test for UTF-8 decoding. -/
def isContByte (b : Nat) : Bool := 128 ≤ b && b < 192

/-- UTF-8 decoding of a byte list, rejecting malformed sequences, overlong
forms, surrogate code points and out-of-range values. -/
def utf8DecList : List Nat → Option (List Char)
  | [] => some []
  | b :: r =>
    if b < 128 then (utf8DecList r).map (Char.ofNat b :: ·)
    else if b < 192 then none
    else if b < 224 then
      match r with
      | [] => none
      | b1 :: r2 =>
        if isContByte b1 then
          if (b - 192) * 64 + (b1 - 128) < 128 then none
          else (utf8DecList r2).map (Char.ofNat ((b - 192) * 64 + (b1 - 128)) :: ·)
        else none
    else if b < 240 then
      match r with
      | [] => none
      | b1 :: r1 =>
        match r1 with
        | [] => none
        | b2 :: r2 =>
          if isContByte b1 && isContByte b2 then
            if (b - 224) * 4096 + (b1 - 128) * 64 + (b2 - 128) < 2048 ∨
                (55296 ≤ (b - 224) * 4096 + (b1 - 128) * 64 + (b2 - 128) ∧
                  (b - 224) * 4096 + (b1 - 128) * 64 + (b2 - 128) < 57344) then none
            else
              (utf8DecList r2).map
                (Char.ofNat ((b - 224) * 4096 + (b1 - 128) * 64 + (b2 - 128)) :: ·)
          else none
    else if b < 248 then
      match r with
      | [] => none
      | b1 :: r1 =>
        match r1 with
        | [] => none
        | b2 :: r2 =>
          match r2 with
          | [] => none
          | b3 :: r3 =>
            if isContByte b1 && (isContByte b2 && isContByte b3) then
              if (b - 240) * 262144 + (b1 - 128) * 4096 + (b2 - 128) * 64 +
                    (b3 - 128) < 65536 ∨
                  1114112 ≤ (b - 240) * 262144 + (b1 - 128) * 4096 + (b2 - 128) * 64 +
                    (b3 - 128) then none
              else
                (utf8DecList r3).map
                  (Char.ofNat ((b - 240) * 262144 + (b1 - 128) * 4096 + (b2 - 128) * 64 +
                    (b3 - 128)) :: ·)
            else none
    else none

/-- Urlencoded decoding of a component: percent-decode, then UTF-8 decode. -/
def decodeComp (cs : List Char) : Option String :=
  (pctDec cs).bind fun bs => (utf8DecList bs).map fun l => ⟨l⟩

/-- Split a query string on ampersands. -/
def splitAmp : List Char → List (List Char)
  | [] => [[]]
  | c :: r =>
    if c = '&' then [] :: splitAmp r
    else
      match splitAmp r with
      | [] => [[c]]
      | p :: ps => (c :: p) :: ps

/-- Split one part on the first equals sign; a part with no equals sign is a
key with an empty value. -/
def splitEq : List Char → List Char × List Char
  | [] => ([], [])
  | c :: r =>
    if c = '=' then ([], r)
    else
      match splitEq r with
      | (k, v) => (c :: k, v)

/-- Decode a list of non-empty parts into key and value pairs. -/
def qsPairs : List (List Char) → Option (List (String × String))
  | [] => some []
  | p :: ps =>
    match decodeComp (splitEq p).1, decodeComp (splitEq p).2, qsPairs ps with
    | some dk, some dv, some rest => some ((dk, dv) :: rest)
    | _, _, _ => none

/-- Parsing a query string (without the leading question mark) back into key
and value pairs, as the platform `URLSearchParams` parser does: split on
ampersands, drop empty parts, split each part on the first equals sign,
urlencoded-decode each side. -/
def parseQS (s : String) : Option (List (String × String)) :=
  qsPairs ((splitAmp s.data).filter fun p => !p.isEmpty)

/-! ## The request dispatcher (apiRequest) -/

/-- The options object handed to the platform fetch: method, headers and an
optional body (RequestInit restricted to the fields the dispatcher sets). -/
structure RequestOptions where
  method : String
  headers : List (String × String)
  body : Option String
deriving DecidableEq

/-- The platform response as the dispatcher observes it: status code, status
text, and the raw body text that `Response.json` decodes. -/
structure FetchResponse where
  status : Nat
  statusText : String
  body : String
deriving DecidableEq

/-- The platform `Response.ok`: status in the 2xx range. -/
def FetchResponse.ok (r : FetchResponse) : Bool := 200 ≤ r.status && r.status ≤ 299

/-- The platform `Response.json`: decode the body text as JSON. -/
def FetchResponse.json (r : FetchResponse) : Option Json := Json.parse r.body

/-- A value thrown by the dispatcher: either the decode failure raised by
`Response.json` on a non-JSON body, or the `Error` the dispatcher constructs,
carrying its message. -/
inductive JsError where
  | syntaxError
  | jsError (message : String)
deriving DecidableEq

/-- The JS object spread of two string-keyed records, as in the source line
`options.headers = \x7b ...options.headers, ...additionalHeaders \x7d`: keys
of the first record keep their positions with values overridden by the
second record on collision, and keys only in the second record are appended
in order. The second record models a JS object literal, so it has distinct
keys; with duplicate keys in the second list this definition takes its first
occurrence where the platform would take the last. -/
def spreadMerge (a b : List (String × String)) : List (String × String) :=
  (a.map fun e => (e.1, ((b.find? fun e2 => e2.1 == e.1).map Prod.snd).getD e.2)) ++
  b.filter fun e2 => !(a.any fun e => e.1 == e2.1)

/-- Header lookup: the value at the first entry with the given name. -/
def hLookup (o : List (String × String)) (k : String) : Option String :=
  (o.find? fun e => e.1 == k).map Prod.snd

/-- The default header set of the dispatcher. -/
def defaultHeaders : List (String × String) := [("Content-Type", "application/json")]

/-- The domain substituted for the placeholder in a development build
(vite.config.ts): the empty string, with a local proxy forwarding /api. -/
def devHonoDomain : String := ""

/-- The domain substituted for the placeholder in a production build
(vite.config.ts). -/
def prodHonoDomain : String := "https://api.my-production-app.com"

/-- The request options the dispatcher builds: default headers spread-merged
with the additional headers, and a JSON body exactly when the payload object
is non-empty. -/
def buildOptions (method : String) (payload : List (String × Json))
    (additionalHeaders : List (String × String)) : RequestOptions :=
  let headers := defaultHeaders
  let options : RequestOptions := { method := method, headers := headers, body := none }
  let options := { options with headers := spreadMerge options.headers additionalHeaders }
  if 0 < payload.length then
    { options with body := some (Json.stringify (.obj payload)) }
  else options

/-- The URL the dispatcher passes to fetch: the resolved domain, the fixed
prefix /api, the caller path, and a query string exactly when the query
parameter object is non-empty. -/
def requestUrl (honoDomain path : String) (qp : List (String × Prim)) : String :=
  let qsParams := if 0 < qp.length then "?" ++ searchParamsString qp else ""
  honoDomain ++ "/api" ++ path ++ qsParams

/-- The message of the `Error` the dispatcher throws on a non-2xx response,
exactly as the template literal in the source interpolates it; an absent
body field interpolates as the text undefined. -/
def errorMessage (status : Nat) (statusText method url : String) (body : Option String)
    (result : Json) : String :=
  "\n      RESPONSE STATUS: " ++ natToString status ++ " | " ++ statusText ++
  "\n      METHOD: " ++ method ++
  "\n      URL: " ++ url ++
  "\n      " ++ ("PAYLOAD: " ++
  (match body with
   | some b => b
   | none => "undefined")) ++
  "\n      ERRORS: " ++ Json.stringify result ++
  "\n    "

/-- Processing of the fetch response: on a non-2xx status, decode the error
body (a decode failure propagates) and throw the formatted error; on a 2xx
status, decode and return the body (a decode failure propagates). -/
def handleResponse (method url : String) (options : RequestOptions)
    (response : FetchResponse) : Except JsError Json :=
  if !response.ok then
    match response.json with
    | none => .error .syntaxError
    | some result =>
      .error (.jsError
        (errorMessage response.status response.statusText method url options.body result))
  else
    match response.json with
    | none => .error .syntaxError
    | some v => .ok v

/-- The dispatcher `apiRequest` of src/lib/client/api-fetch-request/index.ts,
parameterised by the transport (the platform fetch) and by the build-time
resolved domain. Console logging has no observable effect in the model. -/
def apiRequest (fetch : String → RequestOptions → FetchResponse)
    (honoDomain method path : String)
    (queryStringParams : List (String × Prim))
    (payload : List (String × Json))
    (additionalHeaders : List (String × String)) : Except JsError Json :=
  let options := buildOptions method payload additionalHeaders
  let url := requestUrl honoDomain path queryStringParams
  let response := fetch url options
  handleResponse method url options response

/-! ## Auxiliary definitions used by the statements and proofs -/

/-- A character list whose head, if any, is not a decimal digit (the greedy
digit scan stops exactly here). -/
def headNotDigit : List Char → Prop
  | [] => True
  | c :: _ => isDigitChar c = false

/-- A character list whose head, if any, is a JSON value terminator: comma,
closing brace or closing bracket. Serialized values inside a document are
always followed by such input. -/
def DelimOk : List Char → Prop
  | [] => True
  | c :: _ => c = ',' ∨ c = '\x7d' ∨ c = ']'

mutual

/-- Fuel needed by `parseV` to parse the serialization of a value. -/
def jsize : Json → Nat
  | .null => 1
  | .bool _ => 1
  | .num _ => 1
  | .str _ => 1
  | .arr [] => 1
  | .arr (x :: t) => 1 + jsizeL (x :: t)
  | .obj [] => 1
  | .obj (m :: t) => 1 + jsizeM (m :: t)

/-- Fuel needed by `parseL` for the elements of a non-empty array. -/
def jsizeL : List Json → Nat
  | [] => 0
  | x :: t => 1 + jsize x + jsizeL t

/-- Fuel needed by `parseM` for the fields of a non-empty object. -/
def jsizeM : List (String × Json) → Nat
  | [] => 0
  | (_, v) :: t => 1 + jsize v + jsizeM t

end

/-- Substring containment between strings. -/
@[reducible] def strContains (hay needle : String) : Prop := needle.data <:+: hay.data

/-- A mocked transport returning status 404 with the JSON error body used in
the specification example. -/
def fetch404 : String → RequestOptions → FetchResponse := fun _ _ =>
  { status := 404, statusText := "Not Found", body := "\x7b\"error\":\"not found\"\x7d" }

/-- A mocked transport returning status 200 with the JSON body used in the
specification example. -/
def fetch200 : String → RequestOptions → FetchResponse := fun _ _ =>
  { status := 200, statusText := "OK", body := "\x7b\"id\":1\x7d" }

/-- A mocked transport returning status 500 with a body that is not valid
JSON. -/
def fetch500text : String → RequestOptions → FetchResponse := fun _ _ =>
  { status := 500, statusText := "Internal Server Error", body := "Internal Server Error" }

/-- A mocked transport returning status 200 with a body that is not valid
JSON. -/
def fetch200text : String → RequestOptions → FetchResponse := fun _ _ =>
  { status := 200, statusText := "OK", body := "<html></html>" }

/-! ## Lemmas: decimal rendering and the digit scan -/

/-- Equality of characters is equality of their code points. -/
theorem char_eq_iff (c d : Char) : c = d ↔ c.toNat = d.toNat :=
  ⟨fun h => h ▸ rfl, fun h => Char.eq_of_val_eq (UInt32.ext h)⟩

/-- Code point of `Char.ofNat` for code points below the surrogate range. -/
theorem toNat_charOfNat (n : Nat) (h : n < 55296) : (Char.ofNat n).toNat = n := by
  unfold Char.ofNat
  rw [dif_pos (by exact Or.inl h)]
  simp [Char.ofNatAux, Char.toNat, UInt32.toNat, BitVec.toNat_ofNatLt]

/-- Code point of `Char.ofNat` for code points above the surrogate range. -/
theorem toNat_charOfNat_high (n : Nat) (h : 57343 < n) (h2 : n < 1114112) :
    (Char.ofNat n).toNat = n := by
  unfold Char.ofNat
  rw [dif_pos (by exact Or.inr ⟨by omega, h2⟩)]
  simp [Char.ofNatAux, Char.toNat, UInt32.toNat, BitVec.toNat_ofNatLt]

/-- Value of the digit character of a value below ten. -/
theorem digVal_digitChar (n : Nat) (h : n < 10) : digVal (digitChar n) = n := by
  have hh : (digitChar n).toNat = 48 + n := toNat_charOfNat _ (by omega)
  simp [digVal, hh]

/-- The digit character of a value below ten is a digit. -/
theorem isDigitChar_digitChar (n : Nat) (h : n < 10) : isDigitChar (digitChar n) = true := by
  have hh : (digitChar n).toNat = 48 + n := toNat_charOfNat _ (by omega)
  simp [isDigitChar, hh]; omega

/-- Every character of a decimal rendering is a digit. -/
theorem renderNatAux_digits (fuel : Nat) :
    ∀ n, ∀ c ∈ renderNatAux fuel n, isDigitChar c = true := by
  induction fuel with
  | zero => intro n c hc; simp [renderNatAux] at hc
  | succ fuel ih =>
    intro n c hc
    by_cases h : n < 10
    · simp [renderNatAux, h] at hc
      subst hc; exact isDigitChar_digitChar n h
    · simp only [renderNatAux, if_neg h, List.mem_append, List.mem_singleton] at hc
      rcases hc with hc | hc
      · exact ih _ c hc
      · subst hc; exact isDigitChar_digitChar _ (Nat.mod_lt _ (by omega))

/-- A decimal rendering with sufficient fuel is non-empty. -/
theorem renderNatAux_ne_nil (fuel n : Nat) (h : n < fuel) : renderNatAux fuel n ≠ [] := by
  cases fuel with
  | zero => omega
  | succ fuel =>
    by_cases h10 : n < 10 <;> simp [renderNatAux, h10]

/-- Folding the digit accumulator over a decimal rendering recovers the
rendered value. -/
theorem foldl_renderNatAux (fuel : Nat) :
    ∀ n acc, n < fuel →
      List.foldl (fun a c => a * 10 + digVal c) acc (renderNatAux fuel n) =
        acc * 10 ^ (renderNatAux fuel n).length + n := by
  induction fuel with
  | zero => omega
  | succ fuel ih =>
    intro n acc h
    by_cases h10 : n < 10
    · simp [renderNatAux, h10, digVal_digitChar n h10]
    · have hlt : n / 10 < fuel := by omega
      simp only [renderNatAux, if_neg h10, List.foldl_append, List.foldl_cons, List.foldl_nil,
        List.length_append, List.length_cons, List.length_nil]
      rw [ih _ acc hlt, digVal_digitChar _ (Nat.mod_lt _ (by omega))]
      have hdm : n / 10 * 10 + n % 10 = n := by omega
      calc (acc * 10 ^ (renderNatAux fuel (n / 10)).length + n / 10) * 10 + n % 10
          = acc * (10 ^ (renderNatAux fuel (n / 10)).length * 10) +
              (n / 10 * 10 + n % 10) := by ring
        _ = acc * 10 ^ ((renderNatAux fuel (n / 10)).length + (0 + 1)) + n := by
              rw [hdm, pow_succ]

/-- The greedy digit scan consumes an all-digit prefix, folding it into the
accumulator. -/
theorem parseDigitsAux_digits (ds : List Char) :
    ∀ acc rest, (∀ c ∈ ds, isDigitChar c = true) →
      parseDigitsAux acc (ds ++ rest) =
        parseDigitsAux (List.foldl (fun a c => a * 10 + digVal c) acc ds) rest := by
  induction ds with
  | nil => intro acc rest _; rfl
  | cons c ds ih =>
    intro acc rest hd
    have hc : isDigitChar c = true := hd c (by simp)
    simp only [List.cons_append, parseDigitsAux, hc, if_pos]
    exact ih _ rest fun c hcm => hd c (by simp [hcm])

/-- The greedy digit scan stops at a non-digit head. -/
theorem parseDigitsAux_stop (rest : List Char) (acc : Nat) (h : headNotDigit rest) :
    parseDigitsAux acc rest = (acc, rest) := by
  cases rest with
  | nil => rfl
  | cons c r => simp only [headNotDigit] at h; simp [parseDigitsAux, h]

/-- Round trip of the decimal rendering through the greedy digit scan. -/
theorem parseDigits_renderNat (n : Nat) (rest : List Char) (h : headNotDigit rest) :
    ∃ c ds, renderNat n = c :: ds ∧ isDigitChar c = true ∧
      parseDigitsAux (digVal c) (ds ++ rest) = (n, rest) := by
  have hne : renderNat n ≠ [] := renderNatAux_ne_nil _ _ (by omega)
  obtain ⟨c, ds, hcds⟩ : ∃ c ds, renderNat n = c :: ds := by
    cases hrn : renderNat n with
    | nil => exact absurd hrn hne
    | cons c ds => exact ⟨c, ds, rfl⟩
  have hdig : ∀ x ∈ renderNat n, isDigitChar x = true := renderNatAux_digits _ _
  refine ⟨c, ds, hcds, hdig c (by simp [hcds]), ?_⟩
  have hds : ∀ x ∈ ds, isDigitChar x = true := fun x hx => hdig x (by simp [hcds, hx])
  rw [parseDigitsAux_digits ds _ rest hds, parseDigitsAux_stop rest _ h]
  have hfold := foldl_renderNatAux (n + 1) n 0 (by omega)
  rw [show renderNatAux (n + 1) n = renderNat n from rfl, hcds] at hfold
  simp only [List.foldl_cons] at hfold
  have : (0 : Nat) * 10 + digVal c = digVal c := by omega
  rw [this] at hfold
  rw [hfold]
  simp

/-! ## Lemmas: character classes and string escaping -/

/-- A digit character is none of the characters that can begin another kind
of JSON token, and is not whitespace. -/
theorem digit_char_facts (c : Char) (h : isDigitChar c = true) :
    c ≠ 'n' ∧ c ≠ 't' ∧ c ≠ 'f' ∧ c ≠ '"' ∧ c ≠ '[' ∧ c ≠ '\x7b' ∧ c ≠ '-' ∧
      c ≠ ']' ∧ c ≠ '\x7d' ∧ isWsChar c = false := by
  refine ⟨?_, ?_, ?_, ?_, ?_, ?_, ?_, ?_, ?_, ?_⟩
  · rintro rfl; exact absurd h (by decide)
  · rintro rfl; exact absurd h (by decide)
  · rintro rfl; exact absurd h (by decide)
  · rintro rfl; exact absurd h (by decide)
  · rintro rfl; exact absurd h (by decide)
  · rintro rfl; exact absurd h (by decide)
  · rintro rfl; exact absurd h (by decide)
  · rintro rfl; exact absurd h (by decide)
  · rintro rfl; exact absurd h (by decide)
  · simp only [isWsChar, Bool.or_eq_false_iff, decide_eq_false_iff_not]
    refine ⟨⟨⟨?_, ?_⟩, ?_⟩, ?_⟩ <;> rintro rfl <;> exact absurd h (by decide)

/-- Dropping whitespace leaves input with a non-whitespace head unchanged. -/
theorem skipWs_cons (c : Char) (r : List Char) (h : isWsChar c = false) :
    skipWs (c :: r) = c :: r := by
  simp [skipWs, h]

/-- The lowercase hexadecimal digit of a value below sixteen decodes to that
value. -/
theorem hexVal_hexDigitLower (m : Nat) (h : m < 16) : hexVal (hexDigitLower m) = some m := by
  have hb : ∀ m, m < 16 → hexVal (hexDigitLower m) = some m := by decide
  exact hb m h

/-- Step: the parser closes an empty string body at a quote. -/
theorem ps_quote (r : List Char) : parseStrChars ('"' :: r) = some ([], r) := by
  conv_lhs => rw [parseStrChars.eq_def]
  simp +decide

/-- Step: the escaped quote. -/
theorem ps_escq (r : List Char) :
    parseStrChars ('\\' :: '"' :: r) = consStr '"' (parseStrChars r) := by
  conv_lhs => rw [parseStrChars.eq_def]
  simp +decide

/-- Step: the escaped backslash. -/
theorem ps_escb (r : List Char) :
    parseStrChars ('\\' :: '\\' :: r) = consStr '\\' (parseStrChars r) := by
  conv_lhs => rw [parseStrChars.eq_def]
  simp +decide

/-- Step: the named control escapes. -/
theorem ps_escn (r : List Char) :
    parseStrChars ('\\' :: 'b' :: r) = consStr '\x08' (parseStrChars r) ∧
    parseStrChars ('\\' :: 'f' :: r) = consStr '\x0c' (parseStrChars r) ∧
    parseStrChars ('\\' :: 'n' :: r) = consStr '\n' (parseStrChars r) ∧
    parseStrChars ('\\' :: 'r' :: r) = consStr '\r' (parseStrChars r) ∧
    parseStrChars ('\\' :: 't' :: r) = consStr '\t' (parseStrChars r) := by
  refine ⟨?_, ?_, ?_, ?_, ?_⟩ <;>
    (conv_lhs => rw [parseStrChars.eq_def]) <;> simp +decide

/-- Step: the hexadecimal escape with decodable digits. -/
theorem ps_escu (a b c d : Char) (r : List Char) (va vb vc vd : Nat)
    (ha : hexVal a = some va) (hb : hexVal b = some vb) (hc : hexVal c = some vc)
    (hd : hexVal d = some vd) :
    parseStrChars ('\\' :: 'u' :: a :: b :: c :: d :: r) =
      if 55296 ≤ ((va * 16 + vb) * 16 + vc) * 16 + vd ∧
          ((va * 16 + vb) * 16 + vc) * 16 + vd < 57344 then none
      else consStr (Char.ofNat (((va * 16 + vb) * 16 + vc) * 16 + vd)) (parseStrChars r) := by
  conv_lhs => rw [parseStrChars.eq_def]
  simp +decide [ha, hb, hc, hd]

/-- Step: an ordinary literal character of a string body. -/
theorem ps_other (c : Char) (r : List Char) (h1 : c ≠ '"') (h2 : c ≠ '\\')
    (h8 : ¬ c.toNat < 32) : parseStrChars (c :: r) = consStr c (parseStrChars r) := by
  conv_lhs => rw [parseStrChars.eq_def]
  simp [h1, h2, h8]

/-- Parsing a JSON string body inverts the escaping of `JSON.stringify`. -/
theorem parseStrChars_escBody (cs : List Char) :
    ∀ rest, parseStrChars (cs.flatMap escChar ++ '"' :: rest) = some (cs, rest) := by
  induction cs with
  | nil =>
    intro rest
    simp [ps_quote]
  | cons c cs ih =>
    intro rest
    by_cases h1 : c = '"'
    · subst h1
      simp +decide [escChar, ps_escq, consStr, ih]
    · by_cases h2 : c = '\\'
      · subst h2
        simp +decide [escChar, ps_escb, consStr, ih]
      · by_cases h3 : c = '\x08'
        · subst h3
          simp +decide [escChar, (ps_escn _).1, consStr, ih]
        · by_cases h4 : c = '\t'
          · subst h4
            simp +decide [escChar, (ps_escn _).2.2.2.2, consStr, ih]
          · by_cases h5 : c = '\n'
            · subst h5
              simp +decide [escChar, (ps_escn _).2.2.1, consStr, ih]
            · by_cases h6 : c = '\x0c'
              · subst h6
                simp +decide [escChar, (ps_escn _).2.1, consStr, ih]
              · by_cases h7 : c = '\r'
                · subst h7
                  simp +decide [escChar, (ps_escn _).2.2.2.1, consStr, ih]
                · by_cases h8 : c.toNat < 32
                  · have e1 : escChar c =
                        ['\\', 'u', '0', '0', hexDigitLower (c.toNat / 16),
                          hexDigitLower (c.toNat % 16)] := by
                      simp [escChar, h1, h2, h3, h4, h5, h6, h7, h8]
                    rw [List.flatMap_cons, e1]
                    have hv1 : hexVal (hexDigitLower (c.toNat / 16)) = some (c.toNat / 16) :=
                      hexVal_hexDigitLower _ (by omega)
                    have hv2 : hexVal (hexDigitLower (c.toNat % 16)) = some (c.toNat % 16) :=
                      hexVal_hexDigitLower _ (by omega)
                    have hz : hexVal '0' = some 0 := by decide
                    simp only [List.cons_append, List.nil_append]
                    rw [ps_escu _ _ _ _ _ _ _ _ _ hz hz hv1 hv2]
                    have harith : ((0 * 16 + 0) * 16 + c.toNat / 16) * 16 + c.toNat % 16 =
                        c.toNat := by omega
                    rw [if_neg (by omega)]
                    rw [harith, Char.ofNat_toNat]
                    simp [consStr, ih]
                  · have e1 : escChar c = [c] := by
                      simp [escChar, h1, h2, h3, h4, h5, h6, h7, h8]
                    rw [List.flatMap_cons, e1]
                    simp only [List.cons_append, List.nil_append]
                    rw [ps_other c _ h1 h2 h8]
                    simp [consStr, ih]

/-! ## Lemmas: parser step equations and token head facts -/

/-- Step: parsing the null literal. -/
theorem pv_null (fuel : Nat) (r : List Char) :
    parseV (fuel + 1) ('n' :: 'u' :: 'l' :: 'l' :: r) = some (.null, r) := by
  have hws : skipWs ('n' :: 'u' :: 'l' :: 'l' :: r) = 'n' :: 'u' :: 'l' :: 'l' :: r :=
    skipWs_cons _ _ (by decide)
  conv_lhs => rw [parseV.eq_def]
  simp +decide [hws]

/-- Step: parsing the true literal. -/
theorem pv_true (fuel : Nat) (r : List Char) :
    parseV (fuel + 1) ('t' :: 'r' :: 'u' :: 'e' :: r) = some (.bool true, r) := by
  have hws : skipWs ('t' :: 'r' :: 'u' :: 'e' :: r) = 't' :: 'r' :: 'u' :: 'e' :: r :=
    skipWs_cons _ _ (by decide)
  conv_lhs => rw [parseV.eq_def]
  simp +decide [hws]

/-- Step: parsing the false literal. -/
theorem pv_false (fuel : Nat) (r : List Char) :
    parseV (fuel + 1) ('f' :: 'a' :: 'l' :: 's' :: 'e' :: r) = some (.bool false, r) := by
  have hws : skipWs ('f' :: 'a' :: 'l' :: 's' :: 'e' :: r) =
      'f' :: 'a' :: 'l' :: 's' :: 'e' :: r :=
    skipWs_cons _ _ (by decide)
  conv_lhs => rw [parseV.eq_def]
  simp +decide [hws]

/-- Step: parsing a string value. -/
theorem pv_str (fuel : Nat) (r : List Char) :
    parseV (fuel + 1) ('"' :: r) = (parseStrChars r).map fun x => (.str ⟨x.1⟩, x.2) := by
  have hws : skipWs ('"' :: r) = '"' :: r := skipWs_cons _ _ (by decide)
  conv_lhs => rw [parseV.eq_def]
  simp +decide [hws]

/-- Step: parsing the empty array. -/
theorem pv_arr0 (fuel : Nat) (r : List Char) :
    parseV (fuel + 1) ('[' :: ']' :: r) = some (.arr [], r) := by
  have hws : skipWs ('[' :: ']' :: r) = '[' :: ']' :: r := skipWs_cons _ _ (by decide)
  have hws2 : skipWs (']' :: r) = ']' :: r := skipWs_cons _ _ (by decide)
  conv_lhs => rw [parseV.eq_def]
  simp +decide [hws, hws2]

/-- Step: parsing a non-empty array delegates to the element parser. -/
theorem pv_arr1 (fuel : Nat) (c : Char) (r : List Char) (hw : isWsChar c = false)
    (hne : c ≠ ']') :
    parseV (fuel + 1) ('[' :: c :: r) =
      (parseL fuel (c :: r)).map fun x => (.arr x.1, x.2) := by
  have hws : skipWs ('[' :: c :: r) = '[' :: c :: r := skipWs_cons _ _ (by decide)
  have hws2 : skipWs (c :: r) = c :: r := skipWs_cons _ _ hw
  conv_lhs => rw [parseV.eq_def]
  simp +decide [hws, hws2, hne]

/-- Step: parsing the empty object. -/
theorem pv_obj0 (fuel : Nat) (r : List Char) :
    parseV (fuel + 1) ('\x7b' :: '\x7d' :: r) = some (.obj [], r) := by
  have hws : skipWs ('\x7b' :: '\x7d' :: r) = '\x7b' :: '\x7d' :: r :=
    skipWs_cons _ _ (by decide)
  have hws2 : skipWs ('\x7d' :: r) = '\x7d' :: r := skipWs_cons _ _ (by decide)
  conv_lhs => rw [parseV.eq_def]
  simp +decide [hws, hws2]

/-- Step: parsing a non-empty object delegates to the field parser. -/
theorem pv_obj1 (fuel : Nat) (c : Char) (r : List Char) (hw : isWsChar c = false)
    (hne : c ≠ '\x7d') :
    parseV (fuel + 1) ('\x7b' :: c :: r) =
      (parseM fuel (c :: r)).map fun x => (.obj x.1, x.2) := by
  have hws : skipWs ('\x7b' :: c :: r) = '\x7b' :: c :: r := skipWs_cons _ _ (by decide)
  have hws2 : skipWs (c :: r) = c :: r := skipWs_cons _ _ hw
  conv_lhs => rw [parseV.eq_def]
  simp +decide [hws, hws2, hne]

/-- Step: parsing a negative number. -/
theorem pv_neg (fuel : Nat) (c : Char) (r : List Char) (hd : isDigitChar c = true) :
    parseV (fuel + 1) ('-' :: c :: r) =
      some (.num (-((parseDigitsAux (digVal c) r).1 : Int)),
        (parseDigitsAux (digVal c) r).2) := by
  have hws : skipWs ('-' :: c :: r) = '-' :: c :: r := skipWs_cons _ _ (by decide)
  conv_lhs => rw [parseV.eq_def]
  simp +decide [hws, hd]

/-- Step: parsing a non-negative number. -/
theorem pv_digit (fuel : Nat) (c : Char) (r : List Char) (hd : isDigitChar c = true) :
    parseV (fuel + 1) (c :: r) =
      some (.num ((parseDigitsAux (digVal c) r).1 : Int),
        (parseDigitsAux (digVal c) r).2) := by
  obtain ⟨q1, q2, q3, q4, q5, q6, q7, _, _, q10⟩ := digit_char_facts c hd
  have hws : skipWs (c :: r) = c :: r := skipWs_cons _ _ q10
  conv_lhs => rw [parseV.eq_def]
  simp [hws, q1, q2, q3, q4, q5, q6, q7, hd]

/-- Step: the element parser after the last element of an array. -/
theorem pl_last (fuel : Nat) (cs r r2 : List Char) (v : Json)
    (hv : parseV fuel cs = some (v, r)) (hr : skipWs r = ']' :: r2) :
    parseL (fuel + 1) cs = some ([v], r2) := by
  conv_lhs => rw [parseL.eq_def]
  simp +decide [hv, hr]

/-- Step: the element parser at a comma. -/
theorem pl_cons (fuel : Nat) (cs r r2 : List Char) (v : Json)
    (hv : parseV fuel cs = some (v, r)) (hr : skipWs r = ',' :: r2) :
    parseL (fuel + 1) cs = (parseL fuel r2).map fun x => (v :: x.1, x.2) := by
  conv_lhs => rw [parseL.eq_def]
  simp +decide [hv, hr]

/-- Step: the field parser at the last field of an object. -/
theorem pm_last (fuel : Nat) (r r2 r3 r4 r5 : List Char) (k : List Char) (v : Json)
    (hk : parseStrChars r = some (k, r2)) (h2 : skipWs r2 = ':' :: r3)
    (hv : parseV fuel r3 = some (v, r4)) (h4 : skipWs r4 = '\x7d' :: r5) :
    parseM (fuel + 1) ('"' :: r) = some ([(⟨k⟩, v)], r5) := by
  have hws : skipWs ('"' :: r) = '"' :: r := skipWs_cons _ _ (by decide)
  conv_lhs => rw [parseM.eq_def]
  simp +decide [hws, hk, h2, hv, h4]

/-- Step: the field parser at a comma. -/
theorem pm_cons (fuel : Nat) (r r2 r3 r4 r5 : List Char) (k : List Char) (v : Json)
    (hk : parseStrChars r = some (k, r2)) (h2 : skipWs r2 = ':' :: r3)
    (hv : parseV fuel r3 = some (v, r4)) (h4 : skipWs r4 = ',' :: r5) :
    parseM (fuel + 1) ('"' :: r) = (parseM fuel r5).map fun x => ((⟨k⟩, v) :: x.1, x.2) := by
  have hws : skipWs ('"' :: r) = '"' :: r := skipWs_cons _ _ (by decide)
  conv_lhs => rw [parseM.eq_def]
  simp +decide [hws, hk, h2, hv, h4]

/-- Every serialized value starts with a character that is not whitespace and
is not a closing bracket or brace. -/
theorem encV_head_facts (v : Json) :
    ∃ c r, encV v = c :: r ∧ isWsChar c = false ∧ c ≠ ']' ∧ c ≠ '\x7d' := by
  cases v with
  | null => exact ⟨'n', _, rfl, by decide⟩
  | bool b =>
    cases b with
    | true => exact ⟨'t', _, rfl, by decide⟩
    | false => exact ⟨'f', _, rfl, by decide⟩
  | num n =>
    by_cases hn : n < 0
    · refine ⟨'-', renderNat n.natAbs, ?_, by decide⟩
      simp [encV, intChars, hn]
    · have hne : renderNat n.natAbs ≠ [] := renderNatAux_ne_nil _ _ (by omega)
      obtain ⟨c, ds, hcds⟩ : ∃ c ds, renderNat n.natAbs = c :: ds := by
        cases hrn : renderNat n.natAbs with
        | nil => exact absurd hrn hne
        | cons c ds => exact ⟨c, ds, rfl⟩
      have hdig : isDigitChar c = true :=
        renderNatAux_digits (n.natAbs + 1) n.natAbs c
          (by show c ∈ renderNat n.natAbs; rw [hcds]; simp)
      obtain ⟨_, _, _, _, _, _, _, q8, q9, q10⟩ := digit_char_facts c hdig
      refine ⟨c, ds, ?_, q10, q8, q9⟩
      simp [encV, intChars, hn, hcds]
  | str s => exact ⟨'"', _, rfl, by decide⟩
  | arr l =>
    cases l with
    | nil => exact ⟨'[', _, rfl, by decide⟩
    | cons x t => exact ⟨'[', _, rfl, by decide⟩
  | obj l =>
    cases l with
    | nil => exact ⟨'\x7b', _, rfl, by decide⟩
    | cons m t =>
      obtain ⟨k, w⟩ := m
      exact ⟨'\x7b', _, rfl, by decide⟩

/-- The continuation of an array body is delimiter-headed input. -/
theorem encL_delim (t : List Json) (rest : List Char) : DelimOk (encL t ++ rest) := by
  cases t with
  | nil => simp [encL, DelimOk]
  | cons y t => simp [encL, DelimOk]

/-- The continuation of an object body is delimiter-headed input. -/
theorem encM_delim (t : List (String × Json)) (rest : List Char) :
    DelimOk (encM t ++ rest) := by
  cases t with
  | nil => simp [encM, DelimOk]
  | cons m t =>
    obtain ⟨k, w⟩ := m
    simp [encM, DelimOk]

/-- Delimiter-headed input never starts with a digit. -/
theorem delim_headNotDigit (rest : List Char) (h : DelimOk rest) : headNotDigit rest := by
  cases rest with
  | nil => trivial
  | cons c r =>
    simp only [DelimOk] at h
    rcases h with rfl | rfl | rfl <;> (show isDigitChar _ = false; decide)

/-- Every value and every non-empty element or field list needs positive
fuel. -/
theorem jsize_pos (v : Json) : 1 ≤ jsize v := by
  cases v with
  | null => rw [jsize]
  | bool b => rw [jsize]
  | num n => rw [jsize]
  | str s => rw [jsize]
  | arr l => cases l with
    | nil => rw [jsize]
    | cons x t => rw [jsize]; omega
  | obj l => cases l with
    | nil => rw [jsize]
    | cons m t => rw [jsize]; omega

/-! ## The JSON round trip -/

/-- With sufficient fuel, the parsers invert the serializers: one statement
per parser, proved simultaneously by induction on the fuel. -/
theorem parse_encV (fuel : Nat) :
    (∀ v rest, jsize v ≤ fuel → DelimOk rest →
      parseV fuel (encV v ++ rest) = some (v, rest)) ∧
    (∀ x t rest, jsizeL (x :: t) ≤ fuel → DelimOk rest →
      parseL fuel (encV x ++ (encL t ++ rest)) = some (x :: t, rest)) ∧
    (∀ k v t rest, jsizeM ((k, v) :: t) ≤ fuel → DelimOk rest →
      parseM fuel ('"' :: (escBody k ++ '"' :: ':' :: (encV v ++ (encM t ++ rest)))) =
        some ((k, v) :: t, rest)) := by
  induction fuel with
  | zero =>
    refine ⟨fun v rest hs _ => ?_, fun x t rest hs _ => ?_, fun k v t rest hs _ => ?_⟩
    · have := jsize_pos v; omega
    · rw [jsizeL] at hs; omega
    · rw [jsizeM] at hs; omega
  | succ fuel ih =>
    obtain ⟨ihA, ihB, ihC⟩ := ih
    refine ⟨?_, ?_, ?_⟩
    · intro v rest hs hd
      cases v with
      | null =>
        rw [show encV .null = ['n', 'u', 'l', 'l'] from by simp [encV]]
        simp only [List.cons_append, List.nil_append]
        exact pv_null fuel rest
      | bool b =>
        cases b with
        | false =>
          rw [show encV (.bool false) = ['f', 'a', 'l', 's', 'e'] from by simp [encV]]
          simp only [List.cons_append, List.nil_append]
          exact pv_false fuel rest
        | true =>
          rw [show encV (.bool true) = ['t', 'r', 'u', 'e'] from by simp [encV]]
          simp only [List.cons_append, List.nil_append]
          exact pv_true fuel rest
      | num n =>
        have hnd : headNotDigit rest := delim_headNotDigit rest hd
        rw [show encV (.num n) = intChars n from by simp [encV]]
        by_cases hn : n < 0
        · obtain ⟨c, ds, hcds, hcdig, hparse⟩ := parseDigits_renderNat n.natAbs rest hnd
          rw [intChars, if_pos hn, hcds]
          simp only [List.cons_append]
          rw [pv_neg fuel c (ds ++ rest) hcdig, hparse]
          have hnn : -((n.natAbs : Int)) = n := by omega
          show some (Json.num (-((n.natAbs : Int))), rest) = some (Json.num n, rest)
          rw [hnn]
        · obtain ⟨c, ds, hcds, hcdig, hparse⟩ := parseDigits_renderNat n.natAbs rest hnd
          rw [intChars, if_neg hn, hcds]
          simp only [List.cons_append]
          rw [pv_digit fuel c (ds ++ rest) hcdig, hparse]
          have hnn : ((n.natAbs : Int)) = n := by omega
          show some (Json.num ((n.natAbs : Int)), rest) = some (Json.num n, rest)
          rw [hnn]
      | str s =>
        rw [show encV (.str s) = '"' :: (escBody s ++ ['"']) from by simp [encV]]
        simp only [List.cons_append, List.append_assoc, List.singleton_append,
          List.nil_append]
        rw [pv_str]
        have hb : parseStrChars (escBody s ++ '"' :: rest) = some (s.data, rest) := by
          rw [show escBody s = s.data.flatMap escChar from rfl]
          exact parseStrChars_escBody s.data rest
        rw [hb]
        simp
      | arr l =>
        cases l with
        | nil =>
          rw [show encV (.arr []) = ['[', ']'] from by simp [encV]]
          simp only [List.cons_append, List.nil_append]
          exact pv_arr0 fuel rest
        | cons x t =>
          rw [show encV (.arr (x :: t)) = '[' :: (encV x ++ encL t) from by simp [encV]]
          simp only [List.cons_append, List.append_assoc]
          obtain ⟨c, r, hc, hw, hne, _⟩ := encV_head_facts x
          have hb : parseL fuel (encV x ++ (encL t ++ rest)) = some (x :: t, rest) :=
            ihB x t rest (by rw [jsize] at hs; omega) hd
          rw [hc] at hb ⊢
          simp only [List.cons_append] at hb ⊢
          rw [pv_arr1 fuel c _ hw hne, hb]
          rfl
      | obj l =>
        cases l with
        | nil =>
          rw [show encV (.obj []) = ['\x7b', '\x7d'] from by simp [encV]]
          simp only [List.cons_append, List.nil_append]
          exact pv_obj0 fuel rest
        | cons m t =>
          obtain ⟨k, v⟩ := m
          rw [show encV (.obj ((k, v) :: t)) =
              '\x7b' :: '"' :: (escBody k ++ '"' :: ':' :: (encV v ++ encM t)) from by
            simp [encV]]
          simp only [List.cons_append, List.append_assoc]
          rw [pv_obj1 fuel '"' _ (by decide) (by decide)]
          have hc : parseM fuel
              ('"' :: (escBody k ++ '"' :: ':' :: (encV v ++ (encM t ++ rest)))) =
              some ((k, v) :: t, rest) :=
            ihC k v t rest (by rw [jsize] at hs; omega) hd
          rw [hc]
          rfl
    · intro x t rest hs hd
      have hv : parseV fuel (encV x ++ (encL t ++ rest)) = some (x, encL t ++ rest) :=
        ihA x (encL t ++ rest) (by simp only [jsizeL] at hs; omega) (encL_delim t rest)
      cases t with
      | nil =>
        have hr : skipWs (encL ([] : List Json) ++ rest) = ']' :: rest := by
          rw [show encL ([] : List Json) = [']'] from by simp [encL]]
          simp only [List.cons_append, List.nil_append]
          exact skipWs_cons _ _ (by decide)
        exact pl_last fuel _ _ _ x hv hr
      | cons y t2 =>
        have hr : skipWs (encL (y :: t2) ++ rest) = ',' :: (encV y ++ (encL t2 ++ rest)) := by
          rw [show encL (y :: t2) = ',' :: (encV y ++ encL t2) from by simp [encL]]
          simp only [List.cons_append, List.append_assoc]
          exact skipWs_cons _ _ (by decide)
        rw [pl_cons fuel _ _ _ x hv hr]
        rw [ihB y t2 rest (by simp only [jsizeL] at hs ⊢; omega) hd]
        rfl
    · intro k v t rest hs hd
      have hk : parseStrChars (escBody k ++ '"' :: ':' :: (encV v ++ (encM t ++ rest))) =
          some (k.data, ':' :: (encV v ++ (encM t ++ rest))) := by
        rw [show escBody k = k.data.flatMap escChar from rfl]
        exact parseStrChars_escBody k.data _
      have h2 : skipWs (':' :: (encV v ++ (encM t ++ rest))) =
          ':' :: (encV v ++ (encM t ++ rest)) := skipWs_cons _ _ (by decide)
      have hv : parseV fuel (encV v ++ (encM t ++ rest)) = some (v, encM t ++ rest) :=
        ihA v _ (by simp only [jsizeM] at hs; omega) (encM_delim t rest)
      cases t with
      | nil =>
        have h4 : skipWs (encM ([] : List (String × Json)) ++ rest) = '\x7d' :: rest := by
          rw [show encM ([] : List (String × Json)) = ['\x7d'] from by simp [encM]]
          simp only [List.cons_append, List.nil_append]
          exact skipWs_cons _ _ (by decide)
        rw [pm_last fuel _ _ _ _ _ k.data v hk h2 hv h4]
      | cons m t2 =>
        obtain ⟨k2, v2⟩ := m
        have h4 : skipWs (encM ((k2, v2) :: t2) ++ rest) =
            ',' :: ('"' :: (escBody k2 ++ '"' :: ':' :: (encV v2 ++ (encM t2 ++ rest)))) := by
          rw [show encM ((k2, v2) :: t2) =
              ',' :: '"' :: (escBody k2 ++ '"' :: ':' :: (encV v2 ++ encM t2)) from by
            simp [encM]]
          simp only [List.cons_append, List.append_assoc]
          exact skipWs_cons _ _ (by decide)
        rw [pm_cons fuel _ _ _ _ _ k.data v hk h2 hv h4]
        rw [ihC k2 v2 t2 rest (by simp only [jsizeM] at hs ⊢; omega) hd]
        rfl

/-- The fuel measure is dominated by twice the serialized length, proved by
induction on a bound of the structural size. -/
theorem jsize_le_aux (N : Nat) :
    (∀ v : Json, sizeOf v ≤ N → jsize v ≤ 2 * (encV v).length) ∧
    (∀ l : List Json, sizeOf l ≤ N → jsizeL l ≤ 2 * (encL l).length) ∧
    (∀ l : List (String × Json), sizeOf l ≤ N → jsizeM l ≤ 2 * (encM l).length) := by
  induction N with
  | zero =>
    refine ⟨fun v hv => ?_, fun l hl => ?_, fun l hl => ?_⟩
    · cases v <;> simp at hv
    · cases l <;> simp at hl
    · cases l <;> simp at hl
  | succ N ih =>
    obtain ⟨ihV, ihL, ihM⟩ := ih
    refine ⟨fun v hv => ?_, fun l hl => ?_, fun l hl => ?_⟩
    · cases v with
      | null =>
        rw [jsize]
        have : (encV .null).length = 4 := by simp [encV]
        omega
      | bool b =>
        rw [jsize]
        obtain ⟨c, r, hc, _, _, _⟩ := encV_head_facts (.bool b)
        rw [hc]; simp; omega
      | num n =>
        rw [jsize]
        obtain ⟨c, r, hc, _, _, _⟩ := encV_head_facts (.num n)
        rw [hc]; simp; omega
      | str s =>
        rw [jsize]
        obtain ⟨c, r, hc, _, _, _⟩ := encV_head_facts (.str s)
        rw [hc]; simp; omega
      | arr l =>
        cases l with
        | nil =>
          rw [jsize]
          have : (encV (.arr [])).length = 2 := by simp [encV]
          omega
        | cons x t =>
          simp only [Json.arr.sizeOf_spec, List.cons.sizeOf_spec] at hv
          have h1 : jsize x ≤ 2 * (encV x).length := ihV x (by omega)
          have h2 : jsizeL t ≤ 2 * (encL t).length := ihL t (by omega)
          rw [jsize, jsizeL]
          rw [show encV (.arr (x :: t)) = '[' :: (encV x ++ encL t) from by simp [encV]]
          simp only [List.length_cons, List.length_append]
          omega
      | obj l =>
        cases l with
        | nil =>
          rw [jsize]
          have : (encV (.obj [])).length = 2 := by simp [encV]
          omega
        | cons m t =>
          obtain ⟨k, v⟩ := m
          simp only [Json.obj.sizeOf_spec, List.cons.sizeOf_spec, Prod.mk.sizeOf_spec] at hv
          have h1 : jsize v ≤ 2 * (encV v).length := ihV v (by omega)
          have h2 : jsizeM t ≤ 2 * (encM t).length := ihM t (by omega)
          rw [jsize, jsizeM]
          rw [show encV (.obj ((k, v) :: t)) =
              '\x7b' :: '"' :: (escBody k ++ '"' :: ':' :: (encV v ++ encM t)) from by
            simp [encV]]
          simp only [List.length_cons, List.length_append]
          omega
    · cases l with
      | nil =>
        rw [jsizeL]
        simp
      | cons x t =>
        simp only [List.cons.sizeOf_spec] at hl
        have h1 : jsize x ≤ 2 * (encV x).length := ihV x (by omega)
        have h2 : jsizeL t ≤ 2 * (encL t).length := ihL t (by omega)
        rw [jsizeL]
        rw [show encL (x :: t) = ',' :: (encV x ++ encL t) from by simp [encL]]
        simp only [List.length_cons, List.length_append]
        omega
    · cases l with
      | nil =>
        rw [jsizeM]
        simp
      | cons m t =>
        obtain ⟨k, v⟩ := m
        simp only [List.cons.sizeOf_spec, Prod.mk.sizeOf_spec] at hl
        have h1 : jsize v ≤ 2 * (encV v).length := ihV v (by omega)
        have h2 : jsizeM t ≤ 2 * (encM t).length := ihM t (by omega)
        rw [jsizeM]
        rw [show encM ((k, v) :: t) =
            ',' :: '"' :: (escBody k ++ '"' :: ':' :: (encV v ++ encM t)) from by
          simp [encM]]
        simp only [List.length_cons, List.length_append]
        omega

/-- The fuel measure of a value is dominated by twice its serialized
length. -/
theorem jsize_le_encV (v : Json) : jsize v ≤ 2 * (encV v).length :=
  (jsize_le_aux (sizeOf v)).1 v le_rfl

/-- The JSON round trip: parsing the serialization of any modelled value
yields exactly that value. -/
theorem Json.parse_stringify (v : Json) : Json.parse (Json.stringify v) = some v := by
  have hle : jsize v ≤ 2 * (Json.stringify v).length + 2 := by
    have h1 := jsize_le_encV v
    have h2 : (Json.stringify v).length = (encV v).length := rfl
    omega
  have hmain := (parse_encV (2 * (Json.stringify v).length + 2)).1 v [] hle trivial
  rw [List.append_nil] at hmain
  have hdata : (Json.stringify v).data = encV v := rfl
  rw [Json.parse.eq_def, hdata, hmain]
  rfl

/-! ## Lemmas: the urlencoded round trip -/

/-- Code point bounds of a character: below the Unicode bound and outside the
surrogate range. -/
theorem char_toNat_facts (c : Char) :
    c.toNat < 1114112 ∧ ¬(55296 ≤ c.toNat ∧ c.toNat < 57344) := by
  have h := c.valid
  simp only [UInt32.isValidChar, Nat.isValidChar] at h
  have heq : c.toNat = c.val.toNat := rfl
  rcases h with h | ⟨h1, h2⟩
  · constructor <;> omega
  · constructor <;> omega

/-- The uppercase hexadecimal digit of a value below sixteen decodes to that
value. -/
theorem hexVal_hexDigitUpper (m : Nat) (h : m < 16) : hexVal (hexDigitUpper m) = some m := by
  have hb : ∀ m, m < 16 → hexVal (hexDigitUpper m) = some m := by decide
  exact hb m h

/-- Every UTF-8 byte is below 256. -/
theorem utf8Enc_lt (c : Char) : ∀ b ∈ utf8Enc c, b < 256 := by
  obtain ⟨hmax, _⟩ := char_toNat_facts c
  intro b hb
  by_cases h1 : c.toNat < 128
  · simp [utf8Enc, h1] at hb; omega
  · by_cases h2 : c.toNat < 2048
    · simp [utf8Enc, h1, h2] at hb
      rcases hb with hb | hb <;> omega
    · by_cases h3 : c.toNat < 65536
      · simp [utf8Enc, h1, h2, h3] at hb
        rcases hb with hb | hb | hb <;> omega
      · simp [utf8Enc, h1, h2, h3] at hb
        rcases hb with hb | hb | hb | hb <;> omega

set_option maxRecDepth 4000 in
/-- UTF-8 decoding peels one encoded character off the front of the byte
stream. -/
theorem utf8DecList_enc (c : Char) (bs : List Nat) :
    utf8DecList (utf8Enc c ++ bs) = (utf8DecList bs).map (c :: ·) := by
  obtain ⟨hmax, hsur⟩ := char_toNat_facts c
  by_cases h1 : c.toNat < 128
  · rw [show utf8Enc c = [c.toNat] from by simp [utf8Enc, h1]]
    simp only [List.cons_append, List.nil_append]
    conv_lhs => rw [utf8DecList.eq_def]
    simp [h1, Char.ofNat_toNat]
  · by_cases h2 : c.toNat < 2048
    · rw [show utf8Enc c = [192 + c.toNat / 64, 128 + c.toNat % 64] from by
        simp [utf8Enc, h1, h2]]
      simp only [List.cons_append, List.nil_append]
      conv_lhs => rw [utf8DecList.eq_def]
      have d1 : ¬ 192 + c.toNat / 64 < 128 := by omega
      have d2 : ¬ 192 + c.toNat / 64 < 192 := by omega
      have d3 : 192 + c.toNat / 64 < 224 := by omega
      have d4 : isContByte (128 + c.toNat % 64) = true := by
        simp only [isContByte, Bool.and_eq_true, decide_eq_true_eq]
        omega
      have d5 : ¬ (192 + c.toNat / 64 - 192) * 64 + (128 + c.toNat % 64 - 128) < 128 := by
        omega
      have d6 : (192 + c.toNat / 64 - 192) * 64 + (128 + c.toNat % 64 - 128) = c.toNat := by
        omega
      simp only [if_neg d1, if_neg d2, if_pos d3, d4, if_true, if_neg d5]
      rw [d6, Char.ofNat_toNat]
    · by_cases h3 : c.toNat < 65536
      · rw [show utf8Enc c =
            [224 + c.toNat / 4096, 128 + c.toNat / 64 % 64, 128 + c.toNat % 64] from by
          simp [utf8Enc, h1, h2, h3]]
        simp only [List.cons_append, List.nil_append]
        conv_lhs => rw [utf8DecList.eq_def]
        have d1 : ¬ 224 + c.toNat / 4096 < 128 := by omega
        have d2 : ¬ 224 + c.toNat / 4096 < 192 := by omega
        have d3 : ¬ 224 + c.toNat / 4096 < 224 := by omega
        have d4 : 224 + c.toNat / 4096 < 240 := by omega
        have d5 : (isContByte (128 + c.toNat / 64 % 64) &&
            isContByte (128 + c.toNat % 64)) = true := by
          simp only [isContByte, Bool.and_eq_true, decide_eq_true_eq]
          omega
        have d6 : (224 + c.toNat / 4096 - 224) * 4096 + (128 + c.toNat / 64 % 64 - 128) * 64 +
            (128 + c.toNat % 64 - 128) = c.toNat := by omega
        simp only [if_neg d1, if_neg d2, if_neg d3, if_pos d4, d5, if_true]
        rw [d6]
        rw [if_neg (show ¬ (c.toNat < 2048 ∨ (55296 ≤ c.toNat ∧ c.toNat < 57344)) from by
          intro hcon
          rcases hcon with hcon | hcon
          · omega
          · exact hsur hcon)]
        rw [Char.ofNat_toNat]
      · rw [show utf8Enc c =
            [240 + c.toNat / 262144, 128 + c.toNat / 4096 % 64, 128 + c.toNat / 64 % 64,
              128 + c.toNat % 64] from by simp [utf8Enc, h1, h2, h3]]
        simp only [List.cons_append, List.nil_append]
        conv_lhs => rw [utf8DecList.eq_def]
        have d1 : ¬ 240 + c.toNat / 262144 < 128 := by omega
        have d2 : ¬ 240 + c.toNat / 262144 < 192 := by omega
        have d3 : ¬ 240 + c.toNat / 262144 < 224 := by omega
        have d4 : ¬ 240 + c.toNat / 262144 < 240 := by omega
        have d4b : 240 + c.toNat / 262144 < 248 := by omega
        have d5 : (isContByte (128 + c.toNat / 4096 % 64) &&
            (isContByte (128 + c.toNat / 64 % 64) &&
              isContByte (128 + c.toNat % 64))) = true := by
          simp only [isContByte, Bool.and_eq_true, decide_eq_true_eq]
          refine ⟨⟨by omega, by omega⟩, ⟨by omega, by omega⟩, by omega, by omega⟩
        have d6 : (240 + c.toNat / 262144 - 240) * 262144 +
            (128 + c.toNat / 4096 % 64 - 128) * 4096 + (128 + c.toNat / 64 % 64 - 128) * 64 +
            (128 + c.toNat % 64 - 128) = c.toNat := by omega
        simp only [if_neg d1, if_neg d2, if_neg d3, if_neg d4, if_pos d4b, d5, if_true]
        rw [d6]
        rw [if_neg (show ¬ (c.toNat < 65536 ∨ 1114112 ≤ c.toNat) from by
          intro hcon
          rcases hcon with hcon | hcon <;> omega)]
        rw [Char.ofNat_toNat]

/-- UTF-8 decoding inverts UTF-8 encoding of a whole string. -/
theorem utf8DecList_flat (cs : List Char) :
    utf8DecList (cs.flatMap utf8Enc) = some cs := by
  induction cs with
  | nil => rfl
  | cons c cs ih =>
    rw [List.flatMap_cons, utf8DecList_enc, ih]
    rfl

/-- Facts about a safe byte: ASCII, and none of the separator or escape
characters. -/
theorem safe_byte_facts (b : Nat) (h : isSafeByte b = true) :
    b < 128 ∧ b ≠ 43 ∧ b ≠ 37 ∧ b ≠ 38 ∧ b ≠ 61 ∧ b ≠ 32 := by
  simp only [isSafeByte, isAlphaNumByte, Bool.or_eq_true, Bool.and_eq_true,
    decide_eq_true_eq] at h
  omega

/-- Percent-decoding peels one encoded byte off the front. -/
theorem pctDec_encByte (b : Nat) (hb : b < 256) (cs : List Char) :
    pctDec (encByte b ++ cs) = (pctDec cs).map (b :: ·) := by
  by_cases h32 : b = 32
  · subst h32
    rw [show encByte 32 = ['+'] from by simp [encByte]]
    simp only [List.cons_append, List.nil_append]
    conv_lhs => rw [pctDec.eq_def]
    simp +decide
  · by_cases hsafe : isSafeByte b = true
    · obtain ⟨ha, hc1, hc2, _, _, _⟩ := safe_byte_facts b hsafe
      rw [show encByte b = [Char.ofNat b] from by simp [encByte, h32, hsafe]]
      simp only [List.cons_append, List.nil_append]
      conv_lhs => rw [pctDec.eq_def]
      have ht : (Char.ofNat b).toNat = b := toNat_charOfNat b (by omega)
      have e1 : ¬ Char.ofNat b = '+' := by
        rw [char_eq_iff, ht]; show ¬ b = 43; omega
      have e2 : ¬ Char.ofNat b = '%' := by
        rw [char_eq_iff, ht]; show ¬ b = 37; omega
      simp [e1, e2, ht]
    · rw [show encByte b = ['%', hexDigitUpper (b / 16), hexDigitUpper (b % 16)] from by
        simp [encByte, h32, hsafe]]
      simp only [List.cons_append, List.nil_append]
      conv_lhs => rw [pctDec.eq_def]
      have hv1 : hexVal (hexDigitUpper (b / 16)) = some (b / 16) :=
        hexVal_hexDigitUpper _ (by omega)
      have hv2 : hexVal (hexDigitUpper (b % 16)) = some (b % 16) :=
        hexVal_hexDigitUpper _ (by omega)
      have harith : 16 * (b / 16) + b % 16 = b := by omega
      simp +decide [hv1, hv2, harith]

/-- Percent-decoding inverts the byte serializer on a whole byte list. -/
theorem pctDec_flat (bs : List Nat) (h : ∀ b ∈ bs, b < 256) :
    pctDec (bs.flatMap encByte) = some bs := by
  induction bs with
  | nil => rfl
  | cons b bs ih =>
    rw [List.flatMap_cons, pctDec_encByte b (h b (by simp)) _,
      ih fun b hb => h b (by simp [hb])]
    rfl

/-- Urlencoded decoding inverts urlencoded encoding of a component. -/
theorem decodeComp_encodeComp (s : String) : decodeComp (encodeComp s) = some s := by
  rw [decodeComp, encodeComp]
  rw [pctDec_flat _ (by
    intro b hb
    rw [List.mem_flatMap] at hb
    obtain ⟨c, hc, hbc⟩ := hb
    exact utf8Enc_lt c b hbc)]
  rw [Option.some_bind, utf8DecList_flat]
  rfl

/-- No character of an encoded component is an equals sign or ampersand. -/
theorem encodeComp_chars (s : String) : ∀ c ∈ encodeComp s, c ≠ '=' ∧ c ≠ '&' := by
  intro c hc
  rw [encodeComp, List.mem_flatMap] at hc
  obtain ⟨b, hb, hcb⟩ := hc
  have hblt : b < 256 := by
    rw [List.mem_flatMap] at hb
    obtain ⟨ch, hch, hbch⟩ := hb
    exact utf8Enc_lt ch b hbch
  by_cases h32 : b = 32
  · subst h32
    simp [encByte] at hcb
    subst hcb
    exact ⟨by decide, by decide⟩
  · by_cases hsafe : isSafeByte b = true
    · obtain ⟨ha, _, _, h38, h61, _⟩ := safe_byte_facts b hsafe
      simp [encByte, h32, hsafe] at hcb
      subst hcb
      have ht : (Char.ofNat b).toNat = b := toNat_charOfNat b (by omega)
      constructor
      · intro heq
        apply h61
        have hq := congrArg Char.toNat heq
        rw [ht] at hq
        exact hq
      · intro heq
        apply h38
        have hq := congrArg Char.toNat heq
        rw [ht] at hq
        exact hq
    · have hb16 : ∀ m, m < 16 → hexDigitUpper m ≠ '=' ∧ hexDigitUpper m ≠ '&' := by decide
      simp [encByte, h32, hsafe] at hcb
      rcases hcb with hcb | hcb | hcb
      · subst hcb; exact ⟨by decide, by decide⟩
      · subst hcb; exact hb16 _ (by omega)
      · subst hcb; exact hb16 _ (by omega)

/-- Splitting at the first equals sign after an equals-free key. -/
theorem splitEq_append (ek ev : List Char) (h : ∀ c ∈ ek, c ≠ '=') :
    splitEq (ek ++ '=' :: ev) = (ek, ev) := by
  induction ek with
  | nil =>
    conv_lhs => rw [splitEq.eq_def]
    simp
  | cons c ek ih =>
    have hc : c ≠ '=' := h c (by simp)
    conv_lhs => rw [splitEq.eq_def]
    simp only [List.cons_append, if_neg hc]
    rw [ih fun c2 hc2 => h c2 (by simp [hc2])]

/-- Splitting on ampersands leaves an ampersand-free part whole. -/
theorem splitAmp_noamp (p : List Char) (h : ∀ c ∈ p, c ≠ '&') : splitAmp p = [p] := by
  induction p with
  | nil => rfl
  | cons c p ih =>
    have hc : c ≠ '&' := h c (by simp)
    conv_lhs => rw [splitAmp.eq_def]
    simp only [if_neg hc]
    rw [ih fun c2 hc2 => h c2 (by simp [hc2])]

/-- Splitting on ampersands peels an ampersand-free part off the front. -/
theorem splitAmp_append (p r : List Char) (h : ∀ c ∈ p, c ≠ '&') :
    splitAmp (p ++ '&' :: r) = p :: splitAmp r := by
  induction p with
  | nil =>
    conv_lhs => rw [splitAmp.eq_def]
    simp
  | cons c p ih =>
    have hc : c ≠ '&' := h c (by simp)
    conv_lhs => rw [splitAmp.eq_def]
    simp only [List.cons_append, if_neg hc]
    rw [ih fun c2 hc2 => h c2 (by simp [hc2])]

/-- Splitting on ampersands inverts joining with ampersands. -/
theorem splitAmp_ampJoin (parts : List (List Char)) (hne : parts ≠ [])
    (h : ∀ p ∈ parts, ∀ c ∈ p, c ≠ '&') : splitAmp (ampJoin parts) = parts := by
  induction parts with
  | nil => exact absurd rfl hne
  | cons p parts ih =>
    cases parts with
    | nil =>
      rw [show ampJoin [p] = p from by simp [ampJoin]]
      exact splitAmp_noamp p (h p (by simp))
    | cons q ps =>
      rw [show ampJoin (p :: q :: ps) = p ++ '&' :: ampJoin (q :: ps) from by simp [ampJoin]]
      rw [splitAmp_append p _ (h p (by simp))]
      rw [ih (by simp) fun p2 hp2 => h p2 (by simp [hp2])]

/-- Decoding the rendered parts recovers the keys and the string coercions of
the values. -/
theorem qsPairs_parts (qp : List (String × Prim)) :
    qsPairs (qp.map fun kv => encodeComp kv.1 ++ '=' :: encodeComp (primToString kv.2)) =
      some (qp.map fun kv => (kv.1, primToString kv.2)) := by
  induction qp with
  | nil => rfl
  | cons kv qp ih =>
    obtain ⟨k, v⟩ := kv
    simp only [List.map_cons]
    conv_lhs => rw [qsPairs.eq_def]
    have hsp : splitEq (encodeComp k ++ '=' :: encodeComp (primToString v)) =
        (encodeComp k, encodeComp (primToString v)) :=
      splitEq_append _ _ fun c hc => (encodeComp_chars k c hc).1
    simp [hsp, decodeComp_encodeComp, ih]

/-- For a non-empty query parameter object, parsing the query string the
serializer produced yields the original pairs with every value replaced by
its string coercion. -/
theorem parseQS_searchParams (qp : List (String × Prim)) (h : qp ≠ []) :
    parseQS (searchParamsString qp) = some (qp.map fun kv => (kv.1, primToString kv.2)) := by
  rw [parseQS]
  have hdata : (searchParamsString qp).data =
      ampJoin (qp.map fun kv => encodeComp kv.1 ++ '=' :: encodeComp (primToString kv.2)) :=
    rfl
  rw [hdata]
  rw [splitAmp_ampJoin _ (fun hh => h (by simpa using hh)) (by
    intro p hp c hc
    rw [List.mem_map] at hp
    obtain ⟨kv, _, rfl⟩ := hp
    rcases List.mem_append.mp hc with hc2 | hc2
    · exact (encodeComp_chars _ c hc2).2
    · rcases List.mem_cons.mp hc2 with rfl | hc3
      · decide
      · exact (encodeComp_chars _ c hc3).2)]
  rw [List.filter_eq_self.mpr (by
    intro p hp
    rw [List.mem_map] at hp
    obtain ⟨kv, _, rfl⟩ := hp
    cases he : encodeComp kv.1 with
    | nil => simp [he]
    | cons c t => simp [he])]
  exact qsPairs_parts qp

/-! ## Lemmas: the dispatcher and its headers -/

/-- The dispatcher is the response handler applied to the transport at the
built URL and options: what `apiRequest` passes to fetch is exactly
`requestUrl` and `buildOptions`. -/
theorem apiRequest_eq (fetch : String → RequestOptions → FetchResponse)
    (honoDomain method path : String) (qp : List (String × Prim))
    (payload : List (String × Json)) (ah : List (String × String)) :
    apiRequest fetch honoDomain method path qp payload ah =
      handleResponse method (requestUrl honoDomain path qp) (buildOptions method payload ah)
        (fetch (requestUrl honoDomain path qp) (buildOptions method payload ah)) := rfl

/-- The headers of the built options are the spread merge of the default
headers with the additional headers. -/
theorem buildOptions_headers (method : String) (payload : List (String × Json))
    (ah : List (String × String)) :
    (buildOptions method payload ah).headers = spreadMerge defaultHeaders ah := by
  by_cases hp : 0 < payload.length <;> simp [buildOptions, hp]

/-- The body of the built options is the serialized payload exactly when the
payload is non-empty. -/
theorem buildOptions_body (method : String) (payload : List (String × Json))
    (ah : List (String × String)) :
    (buildOptions method payload ah).body =
      if 0 < payload.length then some (Json.stringify (.obj payload)) else none := by
  by_cases hp : 0 < payload.length <;> simp [buildOptions, hp]

/-- Finding in a filtered list agrees with finding in the whole list when
every hit passes the filter. -/
theorem find?_filter_of_imp {α : Type} (p q : α → Bool) (l : List α)
    (h : ∀ e ∈ l, p e = true → q e = true) : (l.filter q).find? p = l.find? p := by
  induction l with
  | nil => rfl
  | cons e l ih =>
    by_cases hq : q e = true
    · rw [List.filter_cons_of_pos hq]
      cases hp : p e with
      | true => rw [List.find?_cons_of_pos _ hp, List.find?_cons_of_pos _ hp]
      | false =>
        rw [List.find?_cons_of_neg _ (by simp [hp]), List.find?_cons_of_neg _ (by simp [hp])]
        exact ih fun e2 he hpe => h e2 (by simp [he]) hpe
    · rw [List.filter_cons_of_neg (by simpa using hq)]
      have hp : p e = false := by
        cases hpe : p e
        · rfl
        · exact absurd (h e (by simp) hpe) hq
      rw [List.find?_cons_of_neg _ (by simp [hp])]
      exact ih fun e2 he hpe => h e2 (by simp [he]) hpe

/-- Lookup in the merged headers: an additional header wins on collision, and
otherwise the default set answers. -/
theorem hLookup_merge (ah : List (String × String)) (k : String) :
    hLookup (spreadMerge defaultHeaders ah) k =
      match hLookup ah k with
      | some v => some v
      | none => hLookup defaultHeaders k := by
  by_cases hk : k = "Content-Type"
  · subst hk
    rw [spreadMerge, defaultHeaders, hLookup, hLookup]
    simp only [List.map_cons, List.map_nil, List.cons_append, List.nil_append]
    rw [show (fun (e2 : String × String) =>
        e2.1 == ("Content-Type", "application/json").1) =
      (fun (e2 : String × String) => e2.1 == "Content-Type") from rfl]
    rw [List.find?_cons_of_pos _ (by simp)]
    cases hf : ah.find? fun e2 => e2.1 == "Content-Type" with
    | none => simp [hLookup, defaultHeaders]
    | some e2 => simp
  · have hbk : ("Content-Type" == k) = false := by
      simp only [beq_eq_false_iff_ne, ne_eq]
      exact fun hh => hk hh.symm
    rw [spreadMerge, defaultHeaders, hLookup, hLookup]
    simp only [List.map_cons, List.map_nil, List.cons_append, List.nil_append]
    rw [List.find?_cons_of_neg _ (by simp [hbk])]
    rw [find?_filter_of_imp _ _ ah (by
      intro e _ hpe
      simp only [beq_iff_eq] at hpe
      show (!(("Content-Type" == e.1) || false)) = true
      rw [hpe, hbk]
      rfl)]
    cases hg : ah.find? fun e => e.1 == k with
    | none =>
      rw [hLookup, List.find?_cons_of_neg _ (by simp [hbk])]
      rfl
    | some e => rfl

/-- If mapping a function over a list returns the list itself, the function
fixes every member. -/
theorem map_eq_self_mem {α : Type} (f : α → α) (l : List α) (h : l.map f = l) :
    ∀ x ∈ l, f x = x := by
  induction l with
  | nil => intro x hx; simp at hx
  | cons a l ih =>
    simp only [List.map_cons, List.cons.injEq] at h
    intro x hx
    rcases List.mem_cons.mp hx with rfl | hx2
    · exact h.1
    · exact ih h.2 x hx2

/-- A string contains every middle factor of a three-way decomposition. -/
theorem strContains_of_decomp (pre needle post hay : String)
    (h : hay = pre ++ needle ++ post) : strContains hay needle := by
  rw [strContains, h, String.data_append, String.data_append]
  exact List.infix_append _ _ _

/-! ## The claims -/

/-- C1: for every method, path and query parameter mapping, with the path
holding no query component, the URL passed to the transport equals the
configured base, then the fixed prefix /api, then the caller path, then a
query string exactly when the query parameters are non-empty; for an empty
query parameter mapping the dispatched URL holds no question mark. -/
theorem claim1_url_construction
    (fetch : String → RequestOptions → FetchResponse)
    (honoDomain method path : String) (qp : List (String × Prim))
    (payload : List (String × Json)) (ah : List (String × String))
    (hdom : honoDomain = devHonoDomain ∨ honoDomain = prodHonoDomain)
    (hpath : '?' ∉ path.data) :
    apiRequest fetch honoDomain method path qp payload ah =
      handleResponse method (requestUrl honoDomain path qp) (buildOptions method payload ah)
        (fetch (requestUrl honoDomain path qp) (buildOptions method payload ah)) ∧
    requestUrl honoDomain path qp =
      honoDomain ++ "/api" ++ path ++
        (if 0 < qp.length then "?" ++ searchParamsString qp else "") ∧
    (qp = [] → '?' ∉ (requestUrl honoDomain path qp).data) := by
  refine ⟨rfl, rfl, ?_⟩
  intro hq
  subst hq
  rw [show requestUrl honoDomain path [] = honoDomain ++ "/api" ++ path ++ "" from rfl]
  simp only [String.data_append]
  intro hmem
  rcases List.mem_append.mp hmem with hmem | hmem
  · rcases List.mem_append.mp hmem with hmem | hmem
    · rcases List.mem_append.mp hmem with hmem | hmem
      · rcases hdom with rfl | rfl
        · exact absurd hmem (by decide)
        · exact absurd hmem (by decide)
      · exact absurd hmem (by decide)
    · exact hpath hmem
  · exact absurd hmem (by decide)

/-- Witness for C1 at a concrete development-build request. -/
theorem claim1_witness :
    (devHonoDomain = devHonoDomain ∨ devHonoDomain = prodHonoDomain) ∧
    '?' ∉ ("/users/1" : String).data ∧
    (apiRequest fetch200 devHonoDomain "GET" "/users/1" [] [] [] =
        handleResponse "GET" (requestUrl devHonoDomain "/users/1" [])
          (buildOptions "GET" [] [])
          (fetch200 (requestUrl devHonoDomain "/users/1" []) (buildOptions "GET" [] [])) ∧
      requestUrl devHonoDomain "/users/1" [] =
        devHonoDomain ++ "/api" ++ "/users/1" ++
          (if 0 < ([] : List (String × Prim)).length then "?" ++ searchParamsString []
            else "") ∧
      (([] : List (String × Prim)) = [] →
        '?' ∉ (requestUrl devHonoDomain "/users/1" []).data)) :=
  ⟨Or.inl rfl, by decide,
    claim1_url_construction fetch200 devHonoDomain "GET" "/users/1" [] [] []
      (Or.inl rfl) (by decide)⟩

/-- C2: whenever the transport returns a non-2xx response whose body decodes
as JSON, the dispatcher rejects with a single error whose message is exactly
the formatted template embedding the status code, the status text, the
method, the full URL, the outgoing body field and the serialized decoded
error body. -/
theorem claim2_error_formatting
    (fetch : String → RequestOptions → FetchResponse)
    (honoDomain method path : String) (qp : List (String × Prim))
    (payload : List (String × Json)) (ah : List (String × String))
    (resp : FetchResponse) (result : Json)
    (hresp : fetch (requestUrl honoDomain path qp) (buildOptions method payload ah) = resp)
    (hok : resp.ok = false) (hjson : Json.parse resp.body = some result) :
    apiRequest fetch honoDomain method path qp payload ah =
      .error (.jsError (errorMessage resp.status resp.statusText method
        (requestUrl honoDomain path qp) (buildOptions method payload ah).body result)) := by
  rw [apiRequest_eq, hresp]
  simp [handleResponse, FetchResponse.json, hok, hjson]

set_option maxRecDepth 8000 in
/-- Witness for C2: the mocked 404 with body error not found; the message
holds the status code, the method and the decoded error text. -/
theorem claim2_witness :
    fetch200 (requestUrl devHonoDomain "/users/999" []) (buildOptions "GET" [] []) =
        fetch200 (requestUrl devHonoDomain "/users/999" []) (buildOptions "GET" [] []) ∧
    (fetch404 (requestUrl devHonoDomain "/users/999" []) (buildOptions "GET" [] [])).ok =
        false ∧
    Json.parse (fetch404 (requestUrl devHonoDomain "/users/999" [])
        (buildOptions "GET" [] [])).body = some (.obj [("error", .str "not found")]) ∧
    apiRequest fetch404 devHonoDomain "GET" "/users/999" [] [] [] =
      .error (.jsError (errorMessage 404 "Not Found" "GET" "/api/users/999" none
        (.obj [("error", .str "not found")]))) ∧
    strContains (errorMessage 404 "Not Found" "GET" "/api/users/999" none
      (.obj [("error", .str "not found")])) "404" ∧
    strContains (errorMessage 404 "Not Found" "GET" "/api/users/999" none
      (.obj [("error", .str "not found")])) "GET" ∧
    strContains (errorMessage 404 "Not Found" "GET" "/api/users/999" none
      (.obj [("error", .str "not found")])) "not found" :=
  ⟨rfl, by decide, rfl,
    claim2_error_formatting fetch404 devHonoDomain "GET" "/users/999" [] [] []
      (fetch404 (requestUrl devHonoDomain "/users/999" []) (buildOptions "GET" [] []))
      (.obj [("error", .str "not found")]) rfl (by decide) rfl,
    by decide, by decide, by decide⟩

/-- C3: whenever the transport returns a 2xx response whose body decodes as
JSON, the dispatcher resolves to exactly the decoded JSON body. -/
theorem claim3_success_decodes
    (fetch : String → RequestOptions → FetchResponse)
    (honoDomain method path : String) (qp : List (String × Prim))
    (payload : List (String × Json)) (ah : List (String × String))
    (resp : FetchResponse) (v : Json)
    (hresp : fetch (requestUrl honoDomain path qp) (buildOptions method payload ah) = resp)
    (hok : resp.ok = true) (hjson : Json.parse resp.body = some v) :
    apiRequest fetch honoDomain method path qp payload ah = .ok v := by
  rw [apiRequest_eq, hresp]
  simp [handleResponse, FetchResponse.json, hok, hjson]

/-- Witness for C3: the mocked 200 with body id one resolves to the decoded
object. -/
theorem claim3_witness :
    fetch200 (requestUrl devHonoDomain "/users/1" []) (buildOptions "GET" [] []) =
        fetch200 (requestUrl devHonoDomain "/users/1" []) (buildOptions "GET" [] []) ∧
    (fetch200 (requestUrl devHonoDomain "/users/1" []) (buildOptions "GET" [] [])).ok =
        true ∧
    Json.parse (fetch200 (requestUrl devHonoDomain "/users/1" [])
        (buildOptions "GET" [] [])).body = some (.obj [("id", .num 1)]) ∧
    apiRequest fetch200 devHonoDomain "GET" "/users/1" [] [] [] =
      .ok (.obj [("id", .num 1)]) :=
  ⟨rfl, by decide, rfl,
    claim3_success_decodes fetch200 devHonoDomain "GET" "/users/1" [] [] []
      (fetch200 (requestUrl devHonoDomain "/users/1" []) (buildOptions "GET" [] []))
      (.obj [("id", .num 1)]) rfl (by decide) rfl⟩

/-- C4: an empty payload mapping attaches no request body; a non-empty
payload mapping attaches exactly the JSON serialization of the payload, and
deserializing that body reproduces the original mapping. The options built
here are exactly what the dispatcher hands to the transport. -/
theorem claim4_payload_body (method : String) (pl : List (String × Json))
    (ah : List (String × String)) :
    (pl = [] → (buildOptions method pl ah).body = none) ∧
    (pl ≠ [] → (buildOptions method pl ah).body = some (Json.stringify (.obj pl)) ∧
      Json.parse (Json.stringify (.obj pl)) = some (.obj pl)) ∧
    (∀ (fetch : String → RequestOptions → FetchResponse) (honoDomain path : String)
      (qp : List (String × Prim)),
      apiRequest fetch honoDomain method path qp pl ah =
        handleResponse method (requestUrl honoDomain path qp) (buildOptions method pl ah)
          (fetch (requestUrl honoDomain path qp) (buildOptions method pl ah))) := by
  refine ⟨?_, ?_, fun fetch h p qp => rfl⟩
  · rintro rfl; rfl
  · intro h
    have hlen : 0 < pl.length := List.length_pos.mpr h
    rw [buildOptions_body]
    exact ⟨by rw [if_pos hlen], Json.parse_stringify (.obj pl)⟩

/-- Witness for C4 at an empty and at a concrete non-empty payload. -/
theorem claim4_witness :
    (buildOptions "GET" ([] : List (String × Json)) []).body = none ∧
    (buildOptions "POST" [("name", Json.str "x")] []).body =
      some (Json.stringify (.obj [("name", Json.str "x")])) ∧
    Json.parse (Json.stringify (.obj [("name", Json.str "x")])) =
      some (.obj [("name", Json.str "x")]) :=
  ⟨(claim4_payload_body "GET" [] []).1 rfl,
    ((claim4_payload_body "POST" [("name", Json.str "x")] []).2.1
      (List.cons_ne_nil _ _)).1,
    ((claim4_payload_body "POST" [("name", Json.str "x")] []).2.1
      (List.cons_ne_nil _ _)).2⟩

/-- C5: the headers sent with the request are the default set holding only
the JSON content type, spread-merged with the additional headers: on a key
collision the caller value wins, and non-colliding keys are additive, as the
lookup characterization states. -/
theorem claim5_header_merge (ah : List (String × String)) :
    (∀ (method : String) (payload : List (String × Json)),
      (buildOptions method payload ah).headers = spreadMerge defaultHeaders ah) ∧
    ∀ k, hLookup (spreadMerge defaultHeaders ah) k =
      match hLookup ah k with
      | some v => some v
      | none => hLookup defaultHeaders k :=
  ⟨fun m pl => buildOptions_headers m pl ah, fun k => hLookup_merge ah k⟩

/-- C6 counterexample: for the mapping limit to the number ten, parsing the
dispatched query string back does not yield the original typed pairs: the
parsed value is the string ten. -/
theorem claim6_counterexample :
    ¬ ((parseQS (searchParamsString [("limit", Prim.num 10)])).map
        (fun l => l.map fun kv => (kv.1, Prim.str kv.2)) =
      some [("limit", Prim.num 10)]) := by decide

/-- C6 (amended): for every non-empty query parameter mapping of primitive
values, parsing the query string of the dispatched URL back yields the
original pairs with every value replaced by its string coercion. -/
theorem claim6_roundtrip_coerced (qp : List (String × Prim)) (h : qp ≠ []) :
    parseQS (searchParamsString qp) =
      some (qp.map fun kv => (kv.1, primToString kv.2)) :=
  parseQS_searchParams qp h

/-- Witness for the amended C6 at a concrete mapping with a space and a
number. -/
theorem claim6_witness :
    ([("q", Prim.str "comfortable shoes"), ("limit", Prim.num 10)] ≠
      ([] : List (String × Prim))) ∧
    parseQS (searchParamsString
        [("q", Prim.str "comfortable shoes"), ("limit", Prim.num 10)]) =
      some [("q", "comfortable shoes"), ("limit", "10")] := by
  constructor
  · simp
  · rw [claim6_roundtrip_coerced _ (by simp)]
    rfl

/-- C7: whenever the transport returns a non-2xx response whose body is not
valid JSON, the decode failure itself propagates: the call rejects with the
decode error and not with the formatted descriptive message. -/
theorem claim7_error_decode_propagates
    (fetch : String → RequestOptions → FetchResponse)
    (honoDomain method path : String) (qp : List (String × Prim))
    (payload : List (String × Json)) (ah : List (String × String))
    (resp : FetchResponse)
    (hresp : fetch (requestUrl honoDomain path qp) (buildOptions method payload ah) = resp)
    (hok : resp.ok = false) (hjson : Json.parse resp.body = none) :
    apiRequest fetch honoDomain method path qp payload ah = .error .syntaxError ∧
    ∀ msg, apiRequest fetch honoDomain method path qp payload ah ≠
      .error (.jsError msg) := by
  have hmain : apiRequest fetch honoDomain method path qp payload ah =
      .error .syntaxError := by
    rw [apiRequest_eq, hresp]
    simp [handleResponse, FetchResponse.json, hok, hjson]
  refine ⟨hmain, fun msg hcon => ?_⟩
  rw [hmain] at hcon
  simp at hcon

/-- Witness for C7: the mocked 500 with a plain-text body. -/
theorem claim7_witness :
    fetch500text (requestUrl devHonoDomain "/users/1" []) (buildOptions "GET" [] []) =
        fetch500text (requestUrl devHonoDomain "/users/1" []) (buildOptions "GET" [] []) ∧
    (fetch500text (requestUrl devHonoDomain "/users/1" []) (buildOptions "GET" [] [])).ok =
        false ∧
    Json.parse (fetch500text (requestUrl devHonoDomain "/users/1" [])
        (buildOptions "GET" [] [])).body = none ∧
    apiRequest fetch500text devHonoDomain "GET" "/users/1" [] [] [] =
      .error .syntaxError :=
  ⟨rfl, by decide, rfl,
    (claim7_error_decode_propagates fetch500text devHonoDomain "GET" "/users/1" [] [] []
      (fetch500text (requestUrl devHonoDomain "/users/1" []) (buildOptions "GET" [] []))
      rfl (by decide) rfl).1⟩

/-- C8: whenever the transport returns a 2xx response whose body is not valid
JSON, the dispatcher also rejects with the decode failure: a successful
status never guarantees resolution. -/
theorem claim8_success_decode_propagates
    (fetch : String → RequestOptions → FetchResponse)
    (honoDomain method path : String) (qp : List (String × Prim))
    (payload : List (String × Json)) (ah : List (String × String))
    (resp : FetchResponse)
    (hresp : fetch (requestUrl honoDomain path qp) (buildOptions method payload ah) = resp)
    (hok : resp.ok = true) (hjson : Json.parse resp.body = none) :
    apiRequest fetch honoDomain method path qp payload ah = .error .syntaxError ∧
    ∀ v, apiRequest fetch honoDomain method path qp payload ah ≠ .ok v := by
  have hmain : apiRequest fetch honoDomain method path qp payload ah =
      .error .syntaxError := by
    rw [apiRequest_eq, hresp]
    simp [handleResponse, FetchResponse.json, hok, hjson]
  refine ⟨hmain, fun v hcon => ?_⟩
  rw [hmain] at hcon
  simp at hcon

/-- Witness for C8: a mocked 200 with a body that is not JSON. -/
theorem claim8_witness :
    fetch200text (requestUrl devHonoDomain "/users/1" []) (buildOptions "GET" [] []) =
        fetch200text (requestUrl devHonoDomain "/users/1" []) (buildOptions "GET" [] []) ∧
    (fetch200text (requestUrl devHonoDomain "/users/1" []) (buildOptions "GET" [] [])).ok =
        true ∧
    Json.parse (fetch200text (requestUrl devHonoDomain "/users/1" [])
        (buildOptions "GET" [] [])).body = none ∧
    apiRequest fetch200text devHonoDomain "GET" "/users/1" [] [] [] =
      .error .syntaxError :=
  ⟨rfl, by decide, rfl,
    (claim8_success_decode_propagates fetch200text devHonoDomain "GET" "/users/1" [] [] []
      (fetch200text (requestUrl devHonoDomain "/users/1" []) (buildOptions "GET" [] []))
      rfl (by decide) rfl).1⟩

/-- C9: with an empty payload mapping, a non-2xx response with a decodable
body produces the descriptive error, and its message holds the literal text
PAYLOAD colon undefined, because the unset body field interpolates as the
text undefined. -/
theorem claim9_payload_undefined
    (fetch : String → RequestOptions → FetchResponse)
    (honoDomain method path : String) (qp : List (String × Prim))
    (ah : List (String × String)) (resp : FetchResponse) (result : Json)
    (hresp : fetch (requestUrl honoDomain path qp) (buildOptions method [] ah) = resp)
    (hok : resp.ok = false) (hjson : Json.parse resp.body = some result) :
    apiRequest fetch honoDomain method path qp [] ah =
      .error (.jsError (errorMessage resp.status resp.statusText method
        (requestUrl honoDomain path qp) none result)) ∧
    strContains (errorMessage resp.status resp.statusText method
      (requestUrl honoDomain path qp) none result) "PAYLOAD: undefined" := by
  constructor
  · rw [apiRequest_eq, hresp]
    have hb : (buildOptions method [] ah).body = none := rfl
    simp [handleResponse, FetchResponse.json, hok, hjson, hb]
  · apply strContains_of_decomp
      ("\n      RESPONSE STATUS: " ++ natToString resp.status ++ " | " ++ resp.statusText ++
        "\n      METHOD: " ++ method ++ "\n      URL: " ++ requestUrl honoDomain path qp ++
        "\n      ")
      "PAYLOAD: undefined"
      ("\n      ERRORS: " ++ Json.stringify result ++ "\n    ")
    rw [errorMessage]
    rw [show ("PAYLOAD: undefined" : String) = "PAYLOAD: " ++ "undefined" from rfl]
    simp only [String.append_assoc]

set_option maxRecDepth 8000 in
/-- Witness for C9 at the mocked 404 with an empty payload. -/
theorem claim9_witness :
    fetch404 (requestUrl devHonoDomain "/users/999" []) (buildOptions "GET" [] []) =
        fetch404 (requestUrl devHonoDomain "/users/999" []) (buildOptions "GET" [] []) ∧
    (fetch404 (requestUrl devHonoDomain "/users/999" []) (buildOptions "GET" [] [])).ok =
        false ∧
    Json.parse (fetch404 (requestUrl devHonoDomain "/users/999" [])
        (buildOptions "GET" [] [])).body = some (.obj [("error", .str "not found")]) ∧
    apiRequest fetch404 devHonoDomain "GET" "/users/999" [] [] [] =
      .error (.jsError (errorMessage 404 "Not Found" "GET" "/api/users/999" none
        (.obj [("error", .str "not found")]))) ∧
    strContains (errorMessage 404 "Not Found" "GET" "/api/users/999" none
      (.obj [("error", .str "not found")])) "PAYLOAD: undefined" := by
  have h := claim9_payload_undefined fetch404 devHonoDomain "GET" "/users/999" [] []
    (fetch404 (requestUrl devHonoDomain "/users/999" []) (buildOptions "GET" [] []))
    (.obj [("error", .str "not found")]) rfl (by decide) rfl
  exact ⟨rfl, by decide, rfl, h.1, h.2⟩

/-- C10: for every non-empty query parameter mapping holding a non-string
primitive value, the dispatched query string encodes the string coercion of
each value: parsing it back yields the string forms, not the original typed
values. -/
theorem claim10_value_coercion (qp : List (String × Prim)) (h : qp ≠ [])
    (hv : ∃ kv ∈ qp, ∀ s, kv.2 ≠ Prim.str s) :
    parseQS (searchParamsString qp) =
      some (qp.map fun kv => (kv.1, primToString kv.2)) ∧
    qp.map (fun kv => (kv.1, Prim.str (primToString kv.2))) ≠ qp := by
  refine ⟨parseQS_searchParams qp h, ?_⟩
  intro heq
  obtain ⟨kv, hmem, hns⟩ := hv
  have hfix := map_eq_self_mem _ qp heq kv hmem
  have h2 : Prim.str (primToString kv.2) = kv.2 := congrArg Prod.snd hfix
  exact hns (primToString kv.2) h2.symm

/-- Witness for C10 at the mapping limit to the number ten. -/
theorem claim10_witness :
    ([("limit", Prim.num 10)] ≠ ([] : List (String × Prim))) ∧
    parseQS (searchParamsString [("limit", Prim.num 10)]) = some [("limit", "10")] ∧
    [("limit", Prim.num 10)].map (fun kv => (kv.1, Prim.str (primToString kv.2))) ≠
      [("limit", Prim.num 10)] := by
  have h := claim10_value_coercion [("limit", Prim.num 10)] (by simp)
    ⟨("limit", Prim.num 10), by simp, fun s => by simp⟩
  refine ⟨by simp, ?_, h.2⟩
  rw [h.1]
  rfl

end ApiFetch
